import Mathlib

/-!
# Prepaid card ledger — verification of `card.go`

Shallow embedding of the prepaid-card account ledger (package `card`).

Modelling choices:

* `apd.Decimal` values are modelled as rationals (`ℚ`); every value the
  program handles is a finite decimal, a subset of `ℚ`.
* Every balance mutation in the source routes through
  `apd.BaseContext.WithPrecision(16)`.  Its `Add`/`Sub` compute the
  exact sum and then round it to 16 significant decimal digits with the
  library's default rounder (round half up, i.e. half away from zero);
  `Inexact`/`Rounded` are not trapped, so rounding is silent.  The
  trapped `Overflow` condition fires when the rounded result's adjusted
  exponent exceeds `MaxExponent = 10^5`, i.e. when its magnitude
  reaches `10^100001`; that is the error path of `ctxAdd`/`ctxSub`.
  Trapped conditions at the opposite extreme (results with adjusted
  exponent below `MinExponent = -10^5`) are not modelled; nothing below
  goes near that range.  A `ctx` call that returns an error is modelled
  as leaving its destination unchanged.
* The mutating methods update the account in the source's statement
  order: each arithmetic result is written to its field before the next
  `ctx` call, so an arithmetic error returns the partially-mutated
  account, exactly as the in-place `ctx.Add(dst, dst, x)` calls in the
  source do.  Each method returns `Option CardErr × Account`: the error
  code (`none` on success) with the post-call account.
* The Go `map[int]*Merchant` is an association list
  `List (Int × Merchant)` with `lookupM` (first match) and `setM`
  (replace the entry with the given key).
* `append` on the transaction slice is list concatenation.
-/

namespace Card

/-- Transaction operation kinds (`Operation` constants in card.go). -/
inductive Operation where
  | Load
  | Authorize
  | Capture
  | Reverse
  | Refund
deriving DecidableEq

/-- Errors returned by the account methods: `ErrUnderflow`,
`ErrMerchantNotFound` wrapped with the offending merchant ID
(`errors.Wrapf(ErrMerchantNotFound, "ID: %d", merchantID)`), and the
decimal context's trapped arithmetic error, propagated unchanged. -/
inductive CardErr where
  | Underflow
  | MerchantNotFound (id : Int)
  | Arithmetic
deriving DecidableEq

/-- `Merchant` struct: per-merchant sub-ledger. -/
structure Merchant where
  Available : ℚ
  Captured : ℚ
deriving DecidableEq

/-- `Transaction` struct: operation type, optional merchant ID
(`*int`, nil for Load), and the requested amount. -/
structure Transaction where
  type : Operation
  merchantID : Option Int
  amount : ℚ
deriving DecidableEq

/-- `Account` struct: the root aggregate. -/
structure Account where
  ID : Int
  Available : ℚ
  Blocked : ℚ
  Merchants : List (Int × Merchant)
  Transactions : List Transaction
deriving DecidableEq

/-- `Balance` struct returned by `Account.Balance`. -/
structure Balance where
  Total : ℚ
  Available : ℚ
  Blocked : ℚ
deriving DecidableEq

/-- `NewAccount`: zero balances, no merchants, empty log. -/
def NewAccount (id : Int) : Account :=
  { ID := id, Available := 0, Blocked := 0, Merchants := [], Transactions := [] }

/-- Lookup in the merchant map (`a.Merchants[merchantID]`). -/
def lookupM : List (Int × Merchant) → Int → Option Merchant
  | [], _ => none
  | p :: t, k => if p.1 = k then some p.2 else lookupM t k

/-- Store a merchant under a key already present in the map (the write
through the `*Merchant` pointer obtained from the map). -/
def setM (l : List (Int × Merchant)) (k : Int) (v : Merchant) : List (Int × Merchant) :=
  l.map fun p => if p.1 = k then (k, v) else p

/-! ## The decimal arithmetic context (`getContext()`)

`apd.BaseContext.WithPrecision(16)`: 16 significant decimal digits,
default rounder (half up), exponent range `±10^5`. -/

/-- Scale a positive rational into the 16-significant-digit coefficient
range `[10^15, 10^16)`, returning the scaled value and the unit in the
last place, so that the input equals `value * ulp`.  Fuel-bounded;
300000 steps cover the context's whole exponent range with slack. -/
def decScale : Nat → ℚ → ℚ → ℚ × ℚ
  | 0, s, u => (s, u)
  | fuel + 1, s, u =>
    if s < 10 ^ 15 then decScale fuel (s * 10) (u / 10)
    else if 10 ^ 16 ≤ s then decScale fuel (s / 10) (u * 10)
    else (s, u)

/-- Round a positive rational to 16 significant decimal digits, half
up: the rounding apd's context applies to every `Add`/`Sub` result. -/
def round16pos (q : ℚ) : ℚ :=
  let p := decScale 300000 q 1
  let n : ℤ := ⌊p.1⌋
  let r : ℤ := if 1 / 2 ≤ p.1 - (n : ℚ) then n + 1 else n
  (r : ℚ) * p.2

/-- Round to 16 significant decimal digits, half away from zero (apd's
default `roundHalfUp` acts on the absolute coefficient). -/
def round16 (q : ℚ) : ℚ :=
  if q = 0 then 0 else if q < 0 then -round16pos (-q) else round16pos q

/-- `ctx.Add`: exact sum rounded to 16 significant digits; the trapped
`Overflow` condition (adjusted exponent beyond `MaxExponent = 10^5`)
is an error, returned to the caller. -/
def ctxAdd (x y : ℚ) : Option ℚ :=
  if 10 ^ 100001 ≤ |round16 (x + y)| then none else some (round16 (x + y))

/-- `ctx.Sub`: exact difference rounded to 16 significant digits, same
error condition as `ctxAdd`. -/
def ctxSub (x y : ℚ) : Option ℚ :=
  if 10 ^ 100001 ≤ |round16 (x - y)| then none else some (round16 (x - y))

/-! ## The account methods -/

/-- `Account.Load`: `ctx.Add(Available, Available, amount)`, return on
error, then append a Load transaction. -/
def Account.Load (a : Account) (amount : ℚ) : Option CardErr × Account :=
  match ctxAdd a.Available amount with
  | none => (some .Arithmetic, a)
  | some av =>
    (none, { a with
      Available := av
      Transactions := a.Transactions ++ [⟨.Load, none, amount⟩] })

/-- `Account.Authorize`: underflow check against `Available`; then, in
source order and in place: `Available -= amount`, `Blocked += amount`,
get-or-create the merchant sub-ledger (zero-initialised),
`merchant.Available += amount`, append.  Each arithmetic error returns
with the mutations made so far kept. -/
def Account.Authorize (a : Account) (merchantID : Int) (amount : ℚ) :
    Option CardErr × Account :=
  if a.Available < amount then
    (some .Underflow, a)
  else
    match ctxSub a.Available amount with
    | none => (some .Arithmetic, a)
    | some av =>
      let a1 := { a with Available := av }
      match ctxAdd a1.Blocked amount with
      | none => (some .Arithmetic, a1)
      | some bl =>
        let a2 := { a1 with Blocked := bl }
        match lookupM a2.Merchants merchantID with
        | some m =>
          match ctxAdd m.Available amount with
          | none => (some .Arithmetic, a2)
          | some mv =>
            let a3 := { a2 with Merchants := setM a2.Merchants merchantID ⟨mv, m.Captured⟩ }
            (none, { a3 with
              Transactions := a3.Transactions ++ [⟨.Authorize, some merchantID, amount⟩] })
        | none =>
          let a3 := { a2 with Merchants := a2.Merchants ++ [(merchantID, ⟨0, 0⟩)] }
          match ctxAdd (0 : ℚ) amount with
          | none => (some .Arithmetic, a3)
          | some mv =>
            let a4 := { a3 with Merchants := setM a3.Merchants merchantID ⟨mv, 0⟩ }
            (none, { a4 with
              Transactions := a4.Transactions ++ [⟨.Authorize, some merchantID, amount⟩] })

/-- `Account.Capture`: merchant lookup (`ErrMerchantNotFound` carrying
the ID when absent), underflow check against `merchant.Available`;
then, in source order and in place: `merchant.Available -= amount`,
`merchant.Captured += amount`, `Blocked -= amount`, append. -/
def Account.Capture (a : Account) (merchantID : Int) (amount : ℚ) :
    Option CardErr × Account :=
  match lookupM a.Merchants merchantID with
  | none => (some (.MerchantNotFound merchantID), a)
  | some m =>
    if m.Available < amount then
      (some .Underflow, a)
    else
      match ctxSub m.Available amount with
      | none => (some .Arithmetic, a)
      | some mv =>
        let a1 := { a with Merchants := setM a.Merchants merchantID ⟨mv, m.Captured⟩ }
        match ctxAdd m.Captured amount with
        | none => (some .Arithmetic, a1)
        | some mc =>
          let a2 := { a1 with Merchants := setM a1.Merchants merchantID ⟨mv, mc⟩ }
          match ctxSub a2.Blocked amount with
          | none => (some .Arithmetic, a2)
          | some bl =>
            let a3 := { a2 with Blocked := bl }
            (none, { a3 with
              Transactions := a3.Transactions ++ [⟨.Capture, some merchantID, amount⟩] })

/-- `Account.Reverse`: merchant lookup, underflow check against
`merchant.Available`; then in source order: `merchant.Available -=
amount`, `Blocked -= amount`, `Available += amount`, append. -/
def Account.Reverse (a : Account) (merchantID : Int) (amount : ℚ) :
    Option CardErr × Account :=
  match lookupM a.Merchants merchantID with
  | none => (some (.MerchantNotFound merchantID), a)
  | some m =>
    if m.Available < amount then
      (some .Underflow, a)
    else
      match ctxSub m.Available amount with
      | none => (some .Arithmetic, a)
      | some mv =>
        let a1 := { a with Merchants := setM a.Merchants merchantID ⟨mv, m.Captured⟩ }
        match ctxSub a1.Blocked amount with
        | none => (some .Arithmetic, a1)
        | some bl =>
          let a2 := { a1 with Blocked := bl }
          match ctxAdd a2.Available amount with
          | none => (some .Arithmetic, a2)
          | some av =>
            (none, { a2 with
              Available := av
              Transactions := a2.Transactions ++ [⟨.Reverse, some merchantID, amount⟩] })

/-- `Account.Refund`: merchant lookup, underflow check against
`merchant.Captured`; then in source order: `merchant.Captured -=
amount`, `Available += amount` (`Blocked` and the merchant's hold
untouched), append. -/
def Account.Refund (a : Account) (merchantID : Int) (amount : ℚ) :
    Option CardErr × Account :=
  match lookupM a.Merchants merchantID with
  | none => (some (.MerchantNotFound merchantID), a)
  | some m =>
    if m.Captured < amount then
      (some .Underflow, a)
    else
      match ctxSub m.Captured amount with
      | none => (some .Arithmetic, a)
      | some mc =>
        let a1 := { a with Merchants := setM a.Merchants merchantID ⟨m.Available, mc⟩ }
        match ctxAdd a1.Available amount with
        | none => (some .Arithmetic, a1)
        | some av =>
          (none, { a1 with
            Available := av
            Transactions := a1.Transactions ++ [⟨.Refund, some merchantID, amount⟩] })

/-- `Account.Balance`: derived balance; `Total` is computed with
`ctx.Add` and can fail, in which case `Balance` returns the error
(modelled as `none`). -/
def Account.Balance (a : Account) : Option Card.Balance :=
  match ctxAdd a.Available a.Blocked with
  | none => none
  | some t => some { Total := t, Available := a.Available, Blocked := a.Blocked }

/-- The exact sum `Available + Blocked`: the quantity the claims call
`total` ("total = available + blocked").  `Account.Balance` reports its
16-digit rounding. -/
def Account.Total (a : Account) : ℚ := a.Available + a.Blocked

/-- `Account.Capture` with the amount as in the Go signature, a nullable
`*apd.Decimal`.  The outer `none` models the nil-pointer dereference
panic that would occur if a nil amount reached `m.Available.Cmp(amount)`;
the merchant lookup happens before any use of `amount`. -/
def Account.CaptureP (a : Account) (merchantID : Int) (amount : Option ℚ) :
    Option (Option CardErr × Account) :=
  match lookupM a.Merchants merchantID with
  | none => some (some (.MerchantNotFound merchantID), a)
  | some _ =>
    match amount with
    | none => none
    | some q => some (a.Capture merchantID q)

/-- `Account.Reverse` with a nullable amount; see `Account.CaptureP`. -/
def Account.ReverseP (a : Account) (merchantID : Int) (amount : Option ℚ) :
    Option (Option CardErr × Account) :=
  match lookupM a.Merchants merchantID with
  | none => some (some (.MerchantNotFound merchantID), a)
  | some _ =>
    match amount with
    | none => none
    | some q => some (a.Reverse merchantID q)

/-- `Account.Refund` with a nullable amount; see `Account.CaptureP`. -/
def Account.RefundP (a : Account) (merchantID : Int) (amount : Option ℚ) :
    Option (Option CardErr × Account) :=
  match lookupM a.Merchants merchantID with
  | none => some (some (.MerchantNotFound merchantID), a)
  | some _ =>
    match amount with
    | none => none
    | some q => some (a.Refund merchantID q)

/-! ## Request sequences and derived quantities -/

/-- One request against an account: the five mutating operations with
their arguments. -/
inductive Op where
  | load (amount : ℚ)
  | authorize (merchantID : Int) (amount : ℚ)
  | capture (merchantID : Int) (amount : ℚ)
  | reverse (merchantID : Int) (amount : ℚ)
  | refund (merchantID : Int) (amount : ℚ)
deriving DecidableEq

/-- The amount argument of a request. -/
def Op.amount : Op → ℚ
  | .load q => q
  | .authorize _ q => q
  | .capture _ q => q
  | .reverse _ q => q
  | .refund _ q => q

/-- Dispatch one request to the corresponding account method. -/
def applyOp (a : Account) : Op → Option CardErr × Account
  | .load q => a.Load q
  | .authorize mid q => a.Authorize mid q
  | .capture mid q => a.Capture mid q
  | .reverse mid q => a.Reverse mid q
  | .refund mid q => a.Refund mid q

/-- Run a sequence of requests, stopping at the first error.  A result
of the form `(none, b)` means every request succeeded. -/
def runOps (a : Account) : List Op → Option CardErr × Account
  | [] => (none, a)
  | op :: rest =>
    match applyOp a op with
    | (none, a2) => runOps a2 rest
    | (some e, a2) => (some e, a2)

/-- Sum of `merchant.Available` over the merchant map. -/
def msum (l : List (Int × Merchant)) : ℚ := (l.map fun p => p.2.Available).sum

/-- Sum of `merchant.Captured` over the merchant map. -/
def csum (l : List (Int × Merchant)) : ℚ := (l.map fun p => p.2.Captured).sum

/-- Sum of the amounts of the Load requests in a sequence. -/
def loadSum (ops : List Op) : ℚ :=
  (ops.map fun op => match op with | .load q => q | _ => 0).sum

/-- Sum of the amounts of the Refund requests in a sequence. -/
def refundSum (ops : List Op) : ℚ :=
  (ops.map fun op => match op with | .refund _ q => q | _ => 0).sum

/-- Sum of the amounts of the Capture requests in a sequence. -/
def captureSum (ops : List Op) : ℚ :=
  (ops.map fun op => match op with | .capture _ q => q | _ => 0).sum

/-- Contribution of one request to `Total = Available + Blocked` when
arithmetic is exact: Load and Refund add the amount, Capture removes
it, Authorize and Reverse move money between the two pools. -/
def opTotalDelta : Op → ℚ
  | .load q => q
  | .refund _ q => q
  | .capture _ q => -q
  | _ => 0

/-- Contribution of one request to the money the account has ever
absorbed: only Load brings money in. -/
def opGrandDelta : Op → ℚ
  | .load q => q
  | _ => 0

/-- A whole-cent value: an integer number of hundredths.  Currency
amounts at the API boundary are such values. -/
def cents (q : ℚ) : Prop := ∃ n : ℤ, q = (n : ℚ) / 100

/-- All money recorded in the account: spendable, held, and captured. -/
def grand (a : Account) : ℚ := a.Available + a.Blocked + csum a.Merchants

/-- Ledger regularity: `Blocked` equals the sum of the merchant holds,
all balances are non-negative whole-cent values, merchant keys are
pairwise distinct, and the account's footprint stays at most `10^13`
(comfortably inside the 16-significant-digit range, where the context's
add/sub of such values is exact). -/
def Regular (a : Account) : Prop :=
  a.Blocked = msum a.Merchants ∧
  0 ≤ a.Available ∧
  (∀ p ∈ a.Merchants, 0 ≤ p.2.Available ∧ 0 ≤ p.2.Captured) ∧
  (a.Merchants.map Prod.fst).Nodup ∧
  cents a.Available ∧ cents a.Blocked ∧
  (∀ p ∈ a.Merchants, cents p.2.Available ∧ cents p.2.Captured) ∧
  grand a ≤ 10 ^ 13

/-- A small reachable account used to instantiate theorems at concrete
inputs: Load 10, Authorize merchant 1 for 4, Capture 3. -/
def demoOps : List Op := [Op.load 10, Op.authorize 1 4, Op.capture 1 3]

/-- The account `demoOps` produces: Available 6, Blocked 1, merchant 1
holding 1 with 3 captured. -/
def demoAcc : Account :=
  { ID := 0, Available := 6, Blocked := 1
    Merchants := [(1, ⟨1, 3⟩)]
    Transactions := [⟨.Load, none, 10⟩, ⟨.Authorize, some 1, 4⟩, ⟨.Capture, some 1, 3⟩] }

/-- The account after the first request of `demoOps`. -/
def demoA1 : Account :=
  { ID := 0
    Available := 10
    Blocked := 0
    Merchants := []
    Transactions := [⟨.Load, none, 10⟩] }

/-- The account after the first two requests of `demoOps`. -/
def demoA2 : Account :=
  { ID := 0
    Available := 6
    Blocked := 4
    Merchants := [(1, ⟨4, 0⟩)]
    Transactions := [⟨.Load, none, 10⟩, ⟨.Authorize, some 1, 4⟩] }

/-- An account with balances near the context's `MaxExponent`, used to
exercise the trapped-overflow error path: Available and Blocked at
6·10^100000 with the whole blocked pool held for merchant 1. -/
def bigAcc : Account :=
  { ID := 0, Available := 6 * 10 ^ 100000, Blocked := 6 * 10 ^ 100000
    Merchants := [(1, ⟨6 * 10 ^ 100000, 0⟩)]
    Transactions := [] }

/-- A fixture for the Refund rounding counterexample: Available at
10^15 (sixteen significant digits once a fraction is added) and a
merchant with a tenth captured. -/
def cxC4 : Account :=
  { ID := 0
    Available := 10 ^ 15
    Blocked := 0
    Merchants := [(1, ⟨0, 1 / 10⟩)]
    Transactions := [] }

/-- A fixture for the Authorize/Reverse round-trip counterexample: a
large available balance and no merchants. -/
def cxC7 : Account :=
  { ID := 0
    Available := 2 * 10 ^ 15
    Blocked := 0
    Merchants := []
    Transactions := [] }

/-- States of the C1 rounding run: after `Load (2*10^15)`. -/
def c1s1 : Account :=
  { ID := 0
    Available := 2 * 10 ^ 15
    Blocked := 0
    Merchants := []
    Transactions := [⟨.Load, none, 2 * 10 ^ 15⟩] }

/-- States of the C1 rounding run: after `Authorize 1 (10^15)`. -/
def c1s2 : Account :=
  { ID := 0
    Available := 10 ^ 15
    Blocked := 10 ^ 15
    Merchants := [(1, ⟨10 ^ 15, 0⟩)]
    Transactions := [⟨.Load, none, 2 * 10 ^ 15⟩, ⟨.Authorize, some 1, 10 ^ 15⟩] }

/-- States of the C1 rounding run: after `Authorize 2 (1/10)`, where the
account-level `Blocked` addition rounded away the 0.1. -/
def c1s3 : Account :=
  { ID := 0
    Available := 10 ^ 15 - 1 / 10
    Blocked := 10 ^ 15
    Merchants := [(1, ⟨10 ^ 15, 0⟩), (2, ⟨1 / 10, 0⟩)]
    Transactions := [⟨.Load, none, 2 * 10 ^ 15⟩, ⟨.Authorize, some 1, 10 ^ 15⟩,
      ⟨.Authorize, some 2, 1 / 10⟩] }

/-! ## Model of the Statement renderer's numeric pipeline

`Account.Statement` does not print the exact decimals: it converts each
figure to binary floating point first (`balance.Available.Float64()`,
`balance.Blocked.Float64()`, `balance.Total.Float64()`,
`v.Amount.Float64()`) and then formats the float64 value with
`%.2f`-style verbs.  `Decimal.Float64` parses the decimal's string with
`strconv.ParseFloat`, which returns the nearest binary64 value
(round-to-nearest, ties-to-even).  The definitions below model that
pipeline for values in the normal binary64 range. -/

/-- Scale a positive rational into the binary64 significand range
`[2^52, 2^53)`, returning the scaled significand and the unit in the
last place, so that the input equals `significand * ulp`.  Fuel-bounded;
1200 steps cover the whole normal binary64 exponent range. -/
def sigScale : Nat → ℚ → ℚ → ℚ × ℚ
  | 0, s, ulp => (s, ulp)
  | fuel + 1, s, ulp =>
    if s < 2 ^ 52 then sigScale fuel (s * 2) (ulp / 2)
    else if 2 ^ 53 ≤ s then sigScale fuel (s / 2) (ulp * 2)
    else (s, ulp)

/-- The binary64 value nearest to a positive rational (round-to-nearest,
ties-to-even at 53 significand bits): what `Float64()` yields for a
positive decimal in the normal range. -/
def float64OfPos (q : ℚ) : ℚ :=
  let p := sigScale 1200 q 1
  let n : ℤ := ⌊p.1⌋
  let frac : ℚ := p.1 - (n : ℚ)
  let r : ℤ := if 1 / 2 < frac ∨ (frac = 1 / 2 ∧ n % 2 = 1) then n + 1 else n
  (r : ℚ) * p.2

/-- The binary64 value nearest to a rational. -/
def float64OfQ (q : ℚ) : ℚ :=
  if q = 0 then 0 else if q < 0 then -float64OfPos (-q) else float64OfPos q

/-- Round to two fraction digits, ties to even: the value printed by a
two-fraction-digit rendering of a number.  Applied to the float64 value
it models the `%.2f` output; applied to the exact decimal it is the
exact-decimal figure the specification prescribes. -/
def round2 (q : ℚ) : ℚ :=
  let n : ℤ := ⌊q * 100⌋
  let frac : ℚ := q * 100 - (n : ℚ)
  let r : ℤ := if 1 / 2 < frac ∨ (frac = 1 / 2 ∧ n % 2 = 1) then n + 1 else n
  (r : ℚ) / 100

/-- The numeric figure `Account.Statement` prints for a decimal value:
float64 conversion first, then two-fraction-digit formatting. -/
def stmtFigure (q : ℚ) : ℚ := round2 (float64OfQ q)

/-! ## Lemmas -/

/-! ## Merchant-map lemmas -/

theorem lookupM_cons (p : Int × Merchant) (t : List (Int × Merchant)) (k : Int) :
    lookupM (p :: t) k = if p.1 = k then some p.2 else lookupM t k := rfl

theorem setM_cons (p : Int × Merchant) (t : List (Int × Merchant)) (k : Int) (v : Merchant) :
    setM (p :: t) k v = (if p.1 = k then (k, v) else p) :: setM t k v := rfl

theorem msum_cons (p : Int × Merchant) (t : List (Int × Merchant)) :
    msum (p :: t) = p.2.Available + msum t := by
  simp [msum]

theorem lookupM_eq_none (l : List (Int × Merchant)) (k : Int) :
    lookupM l k = none ↔ k ∉ l.map Prod.fst := by
  induction l with
  | nil => simp [lookupM]
  | cons p t ih =>
    rw [lookupM_cons]
    by_cases h : p.1 = k
    · simp [h]
    · rw [if_neg h, ih]
      simp [Ne.symm h]

theorem lookupM_mem (l : List (Int × Merchant)) (k : Int) (m : Merchant)
    (h : lookupM l k = some m) : (k, m) ∈ l := by
  induction l with
  | nil => simp [lookupM] at h
  | cons p t ih =>
    rw [lookupM_cons] at h
    by_cases hp : p.1 = k
    · rw [if_pos hp] at h
      obtain rfl : p.2 = m := by simpa using h
      have hm : (p.1, p.2) ∈ p :: t := by rw [Prod.mk.eta]; exact List.mem_cons_self p t
      exact hp ▸ hm
    · rw [if_neg hp] at h
      exact List.mem_cons_of_mem p (ih h)

theorem lookupM_setM_self (l : List (Int × Merchant)) (k : Int) (m v : Merchant)
    (h : lookupM l k = some m) : lookupM (setM l k v) k = some v := by
  induction l with
  | nil => simp [lookupM] at h
  | cons p t ih =>
    rw [lookupM_cons] at h
    rw [setM_cons]
    by_cases hp : p.1 = k
    · rw [if_pos hp, lookupM_cons, if_pos rfl]
    · rw [if_neg hp] at h
      rw [if_neg hp, lookupM_cons, if_neg hp]
      exact ih h

theorem lookupM_setM_ne (l : List (Int × Merchant)) (k n : Int) (v : Merchant)
    (h : n ≠ k) : lookupM (setM l k v) n = lookupM l n := by
  induction l with
  | nil => rfl
  | cons p t ih =>
    rw [setM_cons]
    by_cases hp : p.1 = k
    · have hkn : ¬ ((k, v) : Int × Merchant).1 = n := by simpa using Ne.symm h
      have hpn : ¬ p.1 = n := by rw [hp]; exact Ne.symm h
      rw [if_pos hp, lookupM_cons, lookupM_cons, if_neg hkn, if_neg hpn, ih]
    · rw [if_neg hp, lookupM_cons, lookupM_cons, ih]

theorem lookupM_append (l l2 : List (Int × Merchant)) (k : Int) :
    lookupM (l ++ l2) k =
      match lookupM l k with
      | some m => some m
      | none => lookupM l2 k := by
  induction l with
  | nil => simp [lookupM]
  | cons p t ih =>
    rw [List.cons_append, lookupM_cons, lookupM_cons]
    by_cases hp : p.1 = k
    · rw [if_pos hp, if_pos hp]
    · rw [if_neg hp, if_neg hp, ih]

theorem setM_of_not_mem (l : List (Int × Merchant)) (k : Int) (v : Merchant)
    (h : k ∉ l.map Prod.fst) : setM l k v = l := by
  induction l with
  | nil => rfl
  | cons p t ih =>
    simp only [List.map_cons, List.mem_cons] at h
    push_neg at h
    rw [setM_cons, if_neg (fun hc => h.1 hc.symm), ih h.2]

theorem keys_setM (l : List (Int × Merchant)) (k : Int) (v : Merchant) :
    (setM l k v).map Prod.fst = l.map Prod.fst := by
  induction l with
  | nil => rfl
  | cons p t ih =>
    rw [setM_cons]
    by_cases hp : p.1 = k
    · rw [if_pos hp]
      simp only [List.map_cons, ih]
      rw [hp]
    · rw [if_neg hp]
      simp only [List.map_cons, ih]

theorem mem_setM (l : List (Int × Merchant)) (k : Int) (v : Merchant)
    (p : Int × Merchant) (h : p ∈ setM l k v) : p = (k, v) ∨ p ∈ l := by
  simp only [setM, List.mem_map] at h
  obtain ⟨q, hq, hqe⟩ := h
  by_cases hk : q.1 = k
  · rw [if_pos hk] at hqe
    left
    exact hqe.symm
  · rw [if_neg hk] at hqe
    right
    exact hqe ▸ hq

theorem msum_append (l l2 : List (Int × Merchant)) :
    msum (l ++ l2) = msum l + msum l2 := by
  simp [msum]

theorem msum_setM (l : List (Int × Merchant)) (k : Int) (m v : Merchant)
    (hnd : (l.map Prod.fst).Nodup) (h : lookupM l k = some m) :
    msum (setM l k v) = msum l - m.Available + v.Available := by
  induction l with
  | nil => simp [lookupM] at h
  | cons p t ih =>
    simp only [List.map_cons, List.nodup_cons] at hnd
    rw [setM_cons]
    by_cases hp : p.1 = k
    · rw [lookupM_cons, if_pos hp] at h
      obtain rfl : p.2 = m := by simpa using h
      rw [if_pos hp, msum_cons, msum_cons, setM_of_not_mem t k v (hp ▸ hnd.1)]
      show v.Available + msum t = p.2.Available + msum t - p.2.Available + v.Available
      ring
    · rw [lookupM_cons, if_neg hp] at h
      rw [if_neg hp, msum_cons, msum_cons, ih hnd.2 h]
      ring

theorem msum_nonneg (l : List (Int × Merchant))
    (h : ∀ p ∈ l, 0 ≤ p.2.Available) : 0 ≤ msum l := by
  apply List.sum_nonneg
  intro x hx
  simp only [List.mem_map] at hx
  obtain ⟨p, hp, rfl⟩ := hx
  exact h p hp

theorem avail_le_msum (l : List (Int × Merchant)) (k : Int) (m : Merchant)
    (h : ∀ p ∈ l, 0 ≤ p.2.Available) (hk : lookupM l k = some m) :
    m.Available ≤ msum l := by
  apply List.single_le_sum
  · intro x hx
    simp only [List.mem_map] at hx
    obtain ⟨p, hp, rfl⟩ := hx
    exact h p hp
  · exact List.mem_map.mpr ⟨(k, m), lookupM_mem l k m hk, rfl⟩

/-! ## Per-operation lemmas -/

theorem csum_cons (p : Int × Merchant) (t : List (Int × Merchant)) :
    csum (p :: t) = p.2.Captured + csum t := by
  simp [csum]

theorem csum_append (l l2 : List (Int × Merchant)) :
    csum (l ++ l2) = csum l + csum l2 := by
  simp [csum]

theorem csum_setM (l : List (Int × Merchant)) (k : Int) (m v : Merchant)
    (hnd : (l.map Prod.fst).Nodup) (h : lookupM l k = some m) :
    csum (setM l k v) = csum l - m.Captured + v.Captured := by
  induction l with
  | nil => simp [lookupM] at h
  | cons p t ih =>
    simp only [List.map_cons, List.nodup_cons] at hnd
    rw [setM_cons]
    by_cases hp : p.1 = k
    · rw [lookupM_cons, if_pos hp] at h
      obtain rfl : p.2 = m := by simpa using h
      rw [if_pos hp, csum_cons, csum_cons, setM_of_not_mem t k v (hp ▸ hnd.1)]
      show v.Captured + csum t = p.2.Captured + csum t - p.2.Captured + v.Captured
      ring
    · rw [lookupM_cons, if_neg hp] at h
      rw [if_neg hp, csum_cons, csum_cons, ih hnd.2 h]
      ring

theorem csum_nonneg (l : List (Int × Merchant))
    (h : ∀ p ∈ l, 0 ≤ p.2.Captured) : 0 ≤ csum l := by
  apply List.sum_nonneg
  intro x hx
  simp only [List.mem_map] at hx
  obtain ⟨p, hp, rfl⟩ := hx
  exact h p hp

theorem cap_le_csum (l : List (Int × Merchant)) (k : Int) (m : Merchant)
    (h : ∀ p ∈ l, 0 ≤ p.2.Captured) (hk : lookupM l k = some m) :
    m.Captured ≤ csum l := by
  apply List.single_le_sum
  · intro x hx
    simp only [List.mem_map] at hx
    obtain ⟨p, hp, rfl⟩ := hx
    exact h p hp
  · exact List.mem_map.mpr ⟨(k, m), lookupM_mem l k m hk, rfl⟩

theorem setM_setM (l : List (Int × Merchant)) (k : Int) (v w : Merchant) :
    setM (setM l k v) k w = setM l k w := by
  induction l with
  | nil => rfl
  | cons p t ih =>
    rw [setM_cons, setM_cons]
    by_cases hp : p.1 = k
    · rw [if_pos hp, setM_cons, if_pos rfl, if_pos hp, ih]
    · rw [if_neg hp, setM_cons, if_neg hp, ih]

theorem setM_append_single (l : List (Int × Merchant)) (k : Int) (v w : Merchant)
    (h : k ∉ l.map Prod.fst) :
    setM (l ++ [(k, v)]) k w = l ++ [(k, w)] := by
  show ((l ++ [(k, v)]).map fun p => if p.1 = k then (k, w) else p) = l ++ [(k, w)]
  rw [List.map_append]
  congr 1
  · exact setM_of_not_mem l k w h
  · simp

theorem lookupM_append_single_ne (l : List (Int × Merchant)) (mid n : Int) (v : Merchant)
    (h : n ≠ mid) : lookupM (l ++ [(mid, v)]) n = lookupM l n := by
  rw [lookupM_append]
  cases hl : lookupM l n with
  | some m => rfl
  | none => simp [lookupM, Ne.symm h]

theorem cents_zero : cents 0 :=
  ⟨0, by norm_num⟩

theorem cents_add {x y : ℚ} (hx : cents x) (hy : cents y) : cents (x + y) := by
  obtain ⟨n, rfl⟩ := hx
  obtain ⟨m, rfl⟩ := hy
  exact ⟨n + m, by push_cast; ring⟩

theorem cents_sub {x y : ℚ} (hx : cents x) (hy : cents y) : cents (x - y) := by
  obtain ⟨n, rfl⟩ := hx
  obtain ⟨m, rfl⟩ := hy
  exact ⟨n - m, by push_cast; ring⟩

theorem loadSum_cons (op : Op) (t : List Op) :
    loadSum (op :: t) = opGrandDelta op + loadSum t := by
  cases op <;> simp [loadSum, opGrandDelta]

theorem loadSum_nonneg (ops : List Op) (h : ∀ op ∈ ops, 0 ≤ op.amount) :
    0 ≤ loadSum ops := by
  induction ops with
  | nil => simp [loadSum]
  | cons op t ih =>
    rw [loadSum_cons]
    have ht := ih fun o ho => h o (List.mem_cons_of_mem op ho)
    have hop := h op (List.mem_cons_self op t)
    cases op <;> simp only [opGrandDelta, Op.amount] at hop ⊢ <;> linarith

theorem decScale_spec (fuel : ℕ) : ∀ s u : ℚ, 0 < s →
    (10 : ℚ) ^ 15 ≤ s * 10 ^ fuel → s < 10 ^ 16 * 10 ^ fuel →
    ∃ j : ℤ, decScale fuel s u = (s * (10 : ℚ) ^ j, u / 10 ^ j) ∧
      (10 : ℚ) ^ 15 ≤ s * (10 : ℚ) ^ j ∧ s * (10 : ℚ) ^ j < 10 ^ 16 := by
  induction fuel with
  | zero =>
    intro s u hs hlow hhigh
    refine ⟨0, by simp [decScale], by simpa using hlow, by simpa using hhigh⟩
  | succ f ih =>
    intro s u hs hlow hhigh
    by_cases h1 : s < 10 ^ 15
    · have hlow2 : (10 : ℚ) ^ 15 ≤ s * 10 * 10 ^ f := by
        have he : s * 10 ^ (f + 1) = s * 10 * 10 ^ f := by
          rw [pow_succ 10 f]
          ring
        rw [he] at hlow
        exact hlow
      have hhigh2 : s * 10 < 10 ^ 16 * 10 ^ f := by
        have hf : (1 : ℚ) ≤ 10 ^ f := one_le_pow₀ (by norm_num)
        calc s * 10 < 10 ^ 15 * 10 := by linarith
        _ = 10 ^ 16 := by norm_num
        _ ≤ 10 ^ 16 * 10 ^ f := le_mul_of_one_le_right (by positivity) hf
      obtain ⟨j, hj, hl, hh⟩ := ih (s * 10) (u / 10) (by positivity) hlow2 hhigh2
      refine ⟨j + 1, ?_, ?_, ?_⟩
      · show decScale (f + 1) s u = _
        simp only [decScale, if_pos h1]
        rw [hj]
        have hzp : (10 : ℚ) ^ (j + 1) = 10 ^ j * 10 := zpow_add_one₀ (by norm_num) j
        rw [Prod.mk.injEq]
        constructor
        · rw [hzp]; ring
        · rw [hzp, div_div, mul_comm (10 : ℚ) ((10 : ℚ) ^ j)]
      · have hzp : (10 : ℚ) ^ (j + 1) = 10 ^ j * 10 := zpow_add_one₀ (by norm_num) j
        calc (10 : ℚ) ^ 15 ≤ s * 10 * 10 ^ j := hl
        _ = s * 10 ^ (j + 1) := by rw [hzp]; ring
      · have hzp : (10 : ℚ) ^ (j + 1) = 10 ^ j * 10 := zpow_add_one₀ (by norm_num) j
        calc s * 10 ^ (j + 1) = s * 10 * 10 ^ j := by rw [hzp]; ring
        _ < 10 ^ 16 := hh
    · by_cases h2 : (10 : ℚ) ^ 16 ≤ s
      · have hs10 : (0 : ℚ) < s / 10 := by positivity
        have hlow2 : (10 : ℚ) ^ 15 ≤ s / 10 * 10 ^ f := by
          have hf : (1 : ℚ) ≤ 10 ^ f := one_le_pow₀ (by norm_num)
          have h15 : (10 : ℚ) ^ 15 ≤ s / 10 := by
            rw [le_div_iff₀ (by norm_num : (0:ℚ) < 10)]
            calc (10 : ℚ) ^ 15 * 10 = 10 ^ 16 := by norm_num
            _ ≤ s := h2
          calc (10 : ℚ) ^ 15 ≤ s / 10 := h15
          _ ≤ s / 10 * 10 ^ f := le_mul_of_one_le_right (le_of_lt hs10) hf
        have hhigh2 : s / 10 < 10 ^ 16 * 10 ^ f := by
          rw [div_lt_iff₀ (by norm_num : (0:ℚ) < 10)]
          have he : (10 : ℚ) ^ 16 * 10 ^ (f + 1) = 10 ^ 16 * 10 ^ f * 10 := by
            rw [pow_succ 10 f]
            ring
          rw [he] at hhigh
          exact hhigh
        obtain ⟨j, hj, hl, hh⟩ := ih (s / 10) (u * 10) hs10 hlow2 hhigh2
        refine ⟨j - 1, ?_, ?_, ?_⟩
        · show decScale (f + 1) s u = _
          simp only [decScale, if_neg h1, if_pos h2]
          rw [hj]
          have hzp : (10 : ℚ) ^ (j - 1) = 10 ^ j / 10 := by
            rw [zpow_sub₀ (by norm_num : (10:ℚ) ≠ 0)]
            norm_num
          rw [Prod.mk.injEq]
          constructor
          · rw [hzp]; ring
          · rw [hzp, div_div_eq_mul_div]
        · have hzp : (10 : ℚ) ^ (j - 1) = 10 ^ j / 10 := by
            rw [zpow_sub₀ (by norm_num : (10:ℚ) ≠ 0)]
            norm_num
          calc (10 : ℚ) ^ 15 ≤ s / 10 * 10 ^ j := hl
          _ = s * 10 ^ (j - 1) := by rw [hzp]; ring
        · have hzp : (10 : ℚ) ^ (j - 1) = 10 ^ j / 10 := by
            rw [zpow_sub₀ (by norm_num : (10:ℚ) ≠ 0)]
            norm_num
          calc s * 10 ^ (j - 1) = s / 10 * 10 ^ j := by rw [hzp]; ring
          _ < 10 ^ 16 := hh
      · refine ⟨0, ?_, ?_, ?_⟩
        · show decScale (f + 1) s u = _
          simp only [decScale, if_neg h1, if_neg h2]
          norm_num
        · push_neg at h1
          simpa using h1
        · push_neg at h2
          simpa using h2

theorem round16pos_exact (n z : ℤ) (hz1 : -200000 ≤ z) (hz2 : z ≤ 200000)
    (h0 : 0 < n) (hn : n < 10 ^ 16) :
    round16pos ((n : ℚ) * 10 ^ z) = (n : ℚ) * 10 ^ z := by
  have hten : (10 : ℚ) ≠ 0 := by norm_num
  have h10 : (0 : ℚ) < 10 ^ z := zpow_pos (by norm_num) z
  have hn1 : (1 : ℚ) ≤ (n : ℚ) := by exact_mod_cast h0
  have hnq : ((n : ℚ)) < 10 ^ 16 := by exact_mod_cast hn
  have hq : 0 < (n : ℚ) * 10 ^ z := by positivity
  have hconst : (10 : ℚ) ^ (15 : ℕ) ≤ 10 ^ (-200000 : ℤ) * 10 ^ (300000 : ℕ) := by
    rw [← zpow_natCast (10 : ℚ) 300000, ← zpow_natCast (10 : ℚ) 15,
      ← zpow_add₀ hten]
    exact zpow_le_zpow_right₀ (by norm_num) (by norm_num)
  have hlow : (10 : ℚ) ^ 15 ≤ (n : ℚ) * 10 ^ z * 10 ^ 300000 := by
    have hza : (10 : ℚ) ^ (-200000 : ℤ) ≤ 10 ^ z :=
      zpow_le_zpow_right₀ (by norm_num) hz1
    have hbase : (10 : ℚ) ^ (-200000 : ℤ) ≤ (n : ℚ) * 10 ^ z := by
      have h1 : (10 : ℚ) ^ (-200000 : ℤ) ≤ 1 * 10 ^ z := by
        rw [one_mul]
        exact hza
      have h2 : (1 : ℚ) * 10 ^ z ≤ (n : ℚ) * 10 ^ z :=
        mul_le_mul_of_nonneg_right hn1 (le_of_lt h10)
      linarith
    have hstep : (10 : ℚ) ^ (-200000 : ℤ) * 10 ^ (300000 : ℕ)
        ≤ (n : ℚ) * 10 ^ z * 10 ^ (300000 : ℕ) :=
      mul_le_mul_of_nonneg_right hbase (by positivity)
    exact le_trans hconst hstep
  have hhigh : (n : ℚ) * 10 ^ z < 10 ^ 16 * 10 ^ 300000 := by
    have hza : (10 : ℚ) ^ z ≤ 10 ^ (200000 : ℤ) :=
      zpow_le_zpow_right₀ (by norm_num) hz2
    have h1 : (n : ℚ) * 10 ^ z < 10 ^ 16 * 10 ^ z :=
      mul_lt_mul_of_pos_right hnq h10
    have h2 : (10 : ℚ) ^ 16 * 10 ^ z ≤ 10 ^ 16 * 10 ^ (200000 : ℤ) :=
      mul_le_mul_of_nonneg_left hza (by positivity)
    have h3 : (10 : ℚ) ^ (200000 : ℤ) ≤ 10 ^ (300000 : ℕ) := by
      rw [← zpow_natCast (10 : ℚ) 300000]
      exact zpow_le_zpow_right₀ (by norm_num) (by norm_num)
    have h4 : (10 : ℚ) ^ 16 * 10 ^ (200000 : ℤ) ≤ 10 ^ 16 * 10 ^ (300000 : ℕ) :=
      mul_le_mul_of_nonneg_left h3 (by positivity)
    linarith
  obtain ⟨j, hj, hl, hh⟩ := decScale_spec 300000 ((n : ℚ) * 10 ^ z) 1 hq hlow hhigh
  have hcomb : (n : ℚ) * 10 ^ z * 10 ^ j = (n : ℚ) * 10 ^ (z + j) := by
    rw [zpow_add₀ hten]
    ring
  have hzj : 0 ≤ z + j := by
    by_contra hneg
    push_neg at hneg
    have hle : z + j ≤ -1 := by omega
    have h1 : (10 : ℚ) ^ (z + j) ≤ 10 ^ (-1 : ℤ) :=
      zpow_le_zpow_right₀ (by norm_num) hle
    have h2 : (n : ℚ) * 10 ^ (z + j) ≤ (n : ℚ) * 10 ^ (-1 : ℤ) :=
      mul_le_mul_of_nonneg_left h1 (by positivity)
    have h3 : (n : ℚ) * 10 ^ (-1 : ℤ) < 10 ^ 16 * 10 ^ (-1 : ℤ) :=
      mul_lt_mul_of_pos_right hnq (zpow_pos (by norm_num) _)
    have h4 : (10 : ℚ) ^ (16 : ℕ) * 10 ^ (-1 : ℤ) = 10 ^ (15 : ℕ) := by
      rw [← zpow_natCast (10 : ℚ) 16, ← zpow_natCast (10 : ℚ) 15, ← zpow_add₀ hten]
      norm_num
    rw [← hcomb] at h2
    have h5 : (n : ℚ) * 10 ^ z * 10 ^ j < 10 ^ 15 := by
      rw [← h4]
      linarith
    exact absurd hl (not_le.mpr h5)
  have hc : (n : ℚ) * 10 ^ z * 10 ^ j = ((n * 10 ^ (z + j).toNat : ℤ) : ℚ) := by
    rw [hcomb]
    push_cast
    rw [← zpow_natCast (10 : ℚ) (z + j).toNat, Int.toNat_of_nonneg hzj]
  simp only [round16pos, hj]
  rw [hc, Int.floor_intCast, sub_self, if_neg (by norm_num : ¬ (1:ℚ)/2 ≤ 0)]
  rw [← hc, hcomb, one_div, zpow_add₀ hten]
  have hjne : (10 : ℚ) ^ j ≠ 0 := zpow_ne_zero _ hten
  field_simp
  ring

theorem round16_exact (n z : ℤ) (hz1 : -200000 ≤ z) (hz2 : z ≤ 200000)
    (hn : |n| < 10 ^ 16) :
    round16 ((n : ℚ) * 10 ^ z) = (n : ℚ) * 10 ^ z := by
  have h10 : (0 : ℚ) < 10 ^ z := zpow_pos (by norm_num) z
  rcases lt_trichotomy n 0 with hneg | rfl | hpos
  · have hnq : ((n : ℚ)) < 0 := by exact_mod_cast hneg
    have hq : ((n : ℚ) * 10 ^ z) < 0 := mul_neg_of_neg_of_pos hnq h10
    rw [round16, if_neg (ne_of_lt hq), if_pos hq]
    have he : -((n : ℚ) * 10 ^ z) = ((-n : ℤ) : ℚ) * 10 ^ z := by
      push_cast
      ring
    rw [he, round16pos_exact (-n) z hz1 hz2 (by omega)
      (by rwa [abs_of_neg hneg] at hn)]
    push_cast
    ring
  · simp [round16]
  · have hnq : (0 : ℚ) < (n : ℚ) := by exact_mod_cast hpos
    have hq : 0 < ((n : ℚ) * 10 ^ z) := mul_pos hnq h10
    rw [round16, if_neg (ne_of_gt hq), if_neg (not_lt.mpr (le_of_lt hq))]
    exact round16pos_exact n z hz1 hz2 hpos (by rwa [abs_of_pos hpos] at hn)

theorem round16_exact_div (n : ℤ) (k : ℕ) (hk : k ≤ 200000) (hn : |n| < 10 ^ 16) :
    round16 ((n : ℚ) / 10 ^ k) = (n : ℚ) / 10 ^ k := by
  have he : (n : ℚ) / 10 ^ k = (n : ℚ) * 10 ^ (-(k : ℤ)) := by
    rw [zpow_neg, zpow_natCast]
    ring
  rw [he, round16_exact n (-(k : ℤ)) (by omega) (by omega) hn]

theorem ctxAdd_eq_some (x y r : ℚ) (h : round16 (x + y) = r) (hb : |r| < 10 ^ 100001) :
    ctxAdd x y = some r := by
  rw [ctxAdd, h, if_neg (not_le.mpr hb)]

theorem ctxSub_eq_some (x y r : ℚ) (h : round16 (x - y) = r) (hb : |r| < 10 ^ 100001) :
    ctxSub x y = some r := by
  rw [ctxSub, h, if_neg (not_le.mpr hb)]

theorem ctxAdd_eq_none (x y r : ℚ) (h : round16 (x + y) = r) (hb : 10 ^ 100001 ≤ |r|) :
    ctxAdd x y = none := by
  rw [ctxAdd, h, if_pos hb]

theorem ctxSub_self (x : ℚ) : ctxSub x x = some 0 := by
  apply ctxSub_eq_some
  · rw [sub_self]
    simp [round16]
  · rw [abs_zero]
    positivity

theorem ctxAdd_exact (x y : ℚ) (n : ℤ) (k : ℕ) (hk : k ≤ 200000)
    (h : x + y = (n : ℚ) / 10 ^ k) (hn : |n| < 10 ^ 16) :
    ctxAdd x y = some (x + y) := by
  apply ctxAdd_eq_some
  · rw [h]
    exact round16_exact_div n k hk hn
  · rw [h, abs_div]
    have h1 : |(n : ℚ)| < 10 ^ 16 := by exact_mod_cast hn
    have h2 : (1 : ℚ) ≤ |(10 : ℚ) ^ k| := by
      rw [abs_of_pos (by positivity)]
      exact one_le_pow₀ (by norm_num)
    have h3 : |(n : ℚ)| / |(10 : ℚ) ^ k| ≤ |(n : ℚ)| :=
      div_le_self (abs_nonneg _) h2
    have h4 : (10 : ℚ) ^ 16 ≤ 10 ^ 100001 :=
      pow_le_pow_right₀ (by norm_num) (by norm_num)
    linarith

theorem ctxSub_exact (x y : ℚ) (n : ℤ) (k : ℕ) (hk : k ≤ 200000)
    (h : x - y = (n : ℚ) / 10 ^ k) (hn : |n| < 10 ^ 16) :
    ctxSub x y = some (x - y) := by
  apply ctxSub_eq_some
  · rw [h]
    exact round16_exact_div n k hk hn
  · rw [h, abs_div]
    have h1 : |(n : ℚ)| < 10 ^ 16 := by exact_mod_cast hn
    have h2 : (1 : ℚ) ≤ |(10 : ℚ) ^ k| := by
      rw [abs_of_pos (by positivity)]
      exact one_le_pow₀ (by norm_num)
    have h3 : |(n : ℚ)| / |(10 : ℚ) ^ k| ≤ |(n : ℚ)| :=
      div_le_self (abs_nonneg _) h2
    have h4 : (10 : ℚ) ^ 16 ≤ 10 ^ 100001 :=
      pow_le_pow_right₀ (by norm_num) (by norm_num)
    linarith

theorem ctxAdd_cents (x y : ℚ) (hx : cents x) (hy : cents y)
    (hb : |x + y| ≤ 2 * 10 ^ 13) : ctxAdd x y = some (x + y) := by
  obtain ⟨n, hn⟩ := cents_add hx hy
  apply ctxAdd_exact x y n 2 (by norm_num) (by rw [hn]; norm_num)
  have h1 : (n : ℚ) = (x + y) * 100 := by
    rw [hn]
    ring
  have h2 : |(n : ℚ)| ≤ 2 * 10 ^ 13 * 100 := by
    rw [h1, abs_mul, abs_of_pos (by norm_num : (0:ℚ) < 100)]
    exact mul_le_mul_of_nonneg_right hb (by norm_num)
  have h3 : |(n : ℚ)| < 10 ^ 16 := by linarith
  exact_mod_cast h3

theorem ctxSub_cents (x y : ℚ) (hx : cents x) (hy : cents y)
    (hb : |x - y| ≤ 2 * 10 ^ 13) : ctxSub x y = some (x - y) := by
  obtain ⟨n, hn⟩ := cents_sub hx hy
  apply ctxSub_exact x y n 2 (by norm_num) (by rw [hn]; norm_num)
  have h1 : (n : ℚ) = (x - y) * 100 := by
    rw [hn]
    ring
  have h2 : |(n : ℚ)| ≤ 2 * 10 ^ 13 * 100 := by
    rw [h1, abs_mul, abs_of_pos (by norm_num : (0:ℚ) < 100)]
    exact mul_le_mul_of_nonneg_right hb (by norm_num)
  have h3 : |(n : ℚ)| < 10 ^ 16 := by linarith
  exact_mod_cast h3

theorem decScale_stop (f : Nat) (s u : ℚ) (h1 : ¬ s < 10 ^ 15) (h2 : ¬ 10 ^ 16 ≤ s) :
    decScale (f + 1) s u = (s, u) := by
  simp [decScale, h1, h2]

theorem decScale_down (f : Nat) (s u : ℚ) (h1 : ¬ s < 10 ^ 15) (h2 : 10 ^ 16 ≤ s) :
    decScale (f + 1) s u = decScale f (s / 10) (u * 10) := by
  simp [decScale, h1, h2]

theorem round16_eval_lt (q : ℚ) (n : ℤ) (h1 : (10 : ℚ) ^ 15 ≤ q) (h2 : q < 10 ^ 16)
    (hf : (⌊q⌋ : ℤ) = n) (hfr : q - (n : ℚ) < 1 / 2) :
    round16 q = (n : ℚ) := by
  have hq0 : (0 : ℚ) < q := lt_of_lt_of_le (by positivity) h1
  rw [round16, if_neg (ne_of_gt hq0), if_neg (not_lt.mpr (le_of_lt hq0))]
  rw [round16pos, decScale_stop 299999 q 1 (not_lt.mpr h1) (not_le.mpr h2)]
  simp only [hf]
  rw [if_neg (not_le.mpr hfr)]
  ring

theorem round16_eval_ge (q : ℚ) (n : ℤ) (h1 : (10 : ℚ) ^ 15 ≤ q) (h2 : q < 10 ^ 16)
    (hf : (⌊q⌋ : ℤ) = n) (hfr : 1 / 2 ≤ q - (n : ℚ)) :
    round16 q = ((n + 1 : ℤ) : ℚ) := by
  have hq0 : (0 : ℚ) < q := lt_of_lt_of_le (by positivity) h1
  rw [round16, if_neg (ne_of_gt hq0), if_neg (not_lt.mpr (le_of_lt hq0))]
  rw [round16pos, decScale_stop 299999 q 1 (not_lt.mpr h1) (not_le.mpr h2)]
  simp only [hf]
  rw [if_pos hfr]
  push_cast
  ring

/-! ## Success shapes of the five operations

Each lemma turns a method application into its explicit success
post-state, given the outcomes of the underlying `ctx` calls. -/

theorem Load_shape (a : Account) (q av : ℚ) (h : ctxAdd a.Available q = some av) :
    a.Load q = (none, { a with
      Available := av
      Transactions := a.Transactions ++ [⟨.Load, none, q⟩] }) := by
  unfold Account.Load
  rw [h]

theorem Authorize_shape_mem (a : Account) (mid : Int) (q : ℚ) (m : Merchant)
    (av bl mv : ℚ) (hlt : ¬ a.Available < q)
    (h1 : ctxSub a.Available q = some av)
    (h2 : ctxAdd a.Blocked q = some bl)
    (hm : lookupM a.Merchants mid = some m)
    (h3 : ctxAdd m.Available q = some mv) :
    a.Authorize mid q = (none, { a with
      Available := av
      Blocked := bl
      Merchants := setM a.Merchants mid ⟨mv, m.Captured⟩
      Transactions := a.Transactions ++ [⟨.Authorize, some mid, q⟩] }) := by
  unfold Account.Authorize
  rw [if_neg hlt, h1]
  simp only []
  rw [h2]
  simp only []
  rw [hm]
  simp only []
  rw [h3]

theorem Authorize_shape_new (a : Account) (mid : Int) (q : ℚ)
    (av bl mv : ℚ) (hlt : ¬ a.Available < q)
    (h1 : ctxSub a.Available q = some av)
    (h2 : ctxAdd a.Blocked q = some bl)
    (hm : lookupM a.Merchants mid = none)
    (h3 : ctxAdd 0 q = some mv) :
    a.Authorize mid q = (none, { a with
      Available := av
      Blocked := bl
      Merchants := a.Merchants ++ [(mid, ⟨mv, 0⟩)]
      Transactions := a.Transactions ++ [⟨.Authorize, some mid, q⟩] }) := by
  unfold Account.Authorize
  rw [if_neg hlt, h1]
  simp only []
  rw [h2]
  simp only []
  rw [hm]
  simp only []
  rw [h3]
  simp only []
  rw [setM_append_single _ _ _ _ ((lookupM_eq_none _ _).mp hm)]

theorem Capture_shape (a : Account) (mid : Int) (q : ℚ) (m : Merchant)
    (mv mc bl : ℚ)
    (hm : lookupM a.Merchants mid = some m) (hlt : ¬ m.Available < q)
    (h1 : ctxSub m.Available q = some mv)
    (h2 : ctxAdd m.Captured q = some mc)
    (h3 : ctxSub a.Blocked q = some bl) :
    a.Capture mid q = (none, { a with
      Blocked := bl
      Merchants := setM a.Merchants mid ⟨mv, mc⟩
      Transactions := a.Transactions ++ [⟨.Capture, some mid, q⟩] }) := by
  unfold Account.Capture
  rw [hm]
  simp only []
  rw [if_neg hlt, h1]
  simp only []
  rw [h2]
  simp only []
  rw [h3]
  simp only []
  rw [setM_setM]

theorem Reverse_shape (a : Account) (mid : Int) (q : ℚ) (m : Merchant)
    (mv bl av : ℚ)
    (hm : lookupM a.Merchants mid = some m) (hlt : ¬ m.Available < q)
    (h1 : ctxSub m.Available q = some mv)
    (h2 : ctxSub a.Blocked q = some bl)
    (h3 : ctxAdd a.Available q = some av) :
    a.Reverse mid q = (none, { a with
      Available := av
      Blocked := bl
      Merchants := setM a.Merchants mid ⟨mv, m.Captured⟩
      Transactions := a.Transactions ++ [⟨.Reverse, some mid, q⟩] }) := by
  unfold Account.Reverse
  rw [hm]
  simp only []
  rw [if_neg hlt, h1]
  simp only []
  rw [h2]
  simp only []
  rw [h3]

theorem Refund_shape (a : Account) (mid : Int) (q : ℚ) (m : Merchant)
    (mc av : ℚ)
    (hm : lookupM a.Merchants mid = some m) (hlt : ¬ m.Captured < q)
    (h1 : ctxSub m.Captured q = some mc)
    (h2 : ctxAdd a.Available q = some av) :
    a.Refund mid q = (none, { a with
      Available := av
      Merchants := setM a.Merchants mid ⟨m.Available, mc⟩
      Transactions := a.Transactions ++ [⟨.Refund, some mid, q⟩] }) := by
  unfold Account.Refund
  rw [hm]
  simp only []
  rw [if_neg hlt, h1]
  simp only []
  rw [h2]

/-! ## Error shapes of the guard checks -/

theorem Authorize_underflow (a : Account) (mid : Int) (q : ℚ)
    (hlt : a.Available < q) : a.Authorize mid q = (some .Underflow, a) := by
  unfold Account.Authorize
  rw [if_pos hlt]

theorem Capture_notfound (a : Account) (mid : Int) (q : ℚ)
    (hm : lookupM a.Merchants mid = none) :
    a.Capture mid q = (some (.MerchantNotFound mid), a) := by
  unfold Account.Capture
  rw [hm]

theorem Capture_underflow (a : Account) (mid : Int) (q : ℚ) (m : Merchant)
    (hm : lookupM a.Merchants mid = some m) (hlt : m.Available < q) :
    a.Capture mid q = (some .Underflow, a) := by
  unfold Account.Capture
  rw [hm]
  simp only []
  rw [if_pos hlt]

theorem Reverse_notfound (a : Account) (mid : Int) (q : ℚ)
    (hm : lookupM a.Merchants mid = none) :
    a.Reverse mid q = (some (.MerchantNotFound mid), a) := by
  unfold Account.Reverse
  rw [hm]

theorem Reverse_underflow (a : Account) (mid : Int) (q : ℚ) (m : Merchant)
    (hm : lookupM a.Merchants mid = some m) (hlt : m.Available < q) :
    a.Reverse mid q = (some .Underflow, a) := by
  unfold Account.Reverse
  rw [hm]
  simp only []
  rw [if_pos hlt]

theorem Refund_notfound (a : Account) (mid : Int) (q : ℚ)
    (hm : lookupM a.Merchants mid = none) :
    a.Refund mid q = (some (.MerchantNotFound mid), a) := by
  unfold Account.Refund
  rw [hm]

theorem Refund_underflow (a : Account) (mid : Int) (q : ℚ) (m : Merchant)
    (hm : lookupM a.Merchants mid = some m) (hlt : m.Captured < q) :
    a.Refund mid q = (some .Underflow, a) := by
  unfold Account.Refund
  rw [hm]
  simp only []
  rw [if_pos hlt]

/-! ## Consequences of regularity -/

theorem Regular.sumEq {a : Account} (hg : Regular a) :
    a.Blocked = msum a.Merchants := hg.1

theorem Regular.avail_nonneg {a : Account} (hg : Regular a) :
    0 ≤ a.Available := hg.2.1

theorem Regular.mer_nonneg {a : Account} (hg : Regular a) :
    ∀ p ∈ a.Merchants, 0 ≤ p.2.Available ∧ 0 ≤ p.2.Captured := hg.2.2.1

theorem Regular.keys_nodup {a : Account} (hg : Regular a) :
    (a.Merchants.map Prod.fst).Nodup := hg.2.2.2.1

theorem Regular.avail_cents {a : Account} (hg : Regular a) :
    cents a.Available := hg.2.2.2.2.1

theorem Regular.blocked_cents {a : Account} (hg : Regular a) :
    cents a.Blocked := hg.2.2.2.2.2.1

theorem Regular.mer_cents {a : Account} (hg : Regular a) :
    ∀ p ∈ a.Merchants, cents p.2.Available ∧ cents p.2.Captured := hg.2.2.2.2.2.2.1

theorem Regular.grand_le {a : Account} (hg : Regular a) :
    grand a ≤ 10 ^ 13 := hg.2.2.2.2.2.2.2

theorem Regular.msum_nn {a : Account} (hg : Regular a) : 0 ≤ msum a.Merchants :=
  msum_nonneg _ fun p hp => (hg.mer_nonneg p hp).1

theorem Regular.csum_nn {a : Account} (hg : Regular a) : 0 ≤ csum a.Merchants :=
  csum_nonneg _ fun p hp => (hg.mer_nonneg p hp).2

theorem Regular.blocked_nonneg {a : Account} (hg : Regular a) : 0 ≤ a.Blocked := by
  rw [hg.sumEq]
  exact hg.msum_nn

theorem Regular.avail_le_grand {a : Account} (hg : Regular a) :
    a.Available ≤ grand a := by
  have h1 := hg.blocked_nonneg
  have h2 := hg.csum_nn
  unfold grand
  linarith

theorem Regular.blocked_le_grand {a : Account} (hg : Regular a) :
    a.Blocked ≤ grand a := by
  have h1 := hg.avail_nonneg
  have h2 := hg.csum_nn
  unfold grand
  linarith

theorem Regular.csum_le_grand {a : Account} (hg : Regular a) :
    csum a.Merchants ≤ grand a := by
  have h1 := hg.avail_nonneg
  have h2 := hg.blocked_nonneg
  unfold grand
  linarith

theorem Regular_new (id : Int) : Regular (NewAccount id) := by
  refine ⟨rfl, le_refl 0, ?_, ?_, cents_zero, cents_zero, ?_, ?_⟩ <;>
    simp [NewAccount, grand, csum]

/-! ## Exact success of the operations on regular accounts

For regular accounts and whole-cent amounts inside the budget, every
`ctx` call is exact, so the operations have their ideal effects. -/

theorem Load_regular (a : Account) (q : ℚ) (hg : Regular a) (h0 : 0 ≤ q)
    (hc : cents q) (hbd : grand a + q ≤ 10 ^ 13) :
    a.Load q = (none, { a with
      Available := a.Available + q
      Transactions := a.Transactions ++ [⟨.Load, none, q⟩] }) := by
  apply Load_shape
  apply ctxAdd_cents _ _ hg.avail_cents hc
  have h1 := hg.avail_nonneg
  have h2 := hg.avail_le_grand
  rw [abs_of_nonneg (by linarith)]
  linarith

theorem Authorize_regular_mem (a : Account) (mid : Int) (q : ℚ) (m : Merchant)
    (hg : Regular a) (h0 : 0 ≤ q) (hc : cents q)
    (hlt : ¬ a.Available < q) (hm : lookupM a.Merchants mid = some m) :
    a.Authorize mid q = (none, { a with
      Available := a.Available - q
      Blocked := a.Blocked + q
      Merchants := setM a.Merchants mid ⟨m.Available + q, m.Captured⟩
      Transactions := a.Transactions ++ [⟨.Authorize, some mid, q⟩] }) := by
  push_neg at hlt
  have hmm := lookupM_mem _ _ _ hm
  have hma := (hg.mer_nonneg _ hmm).1
  have hmc := (hg.mer_cents _ hmm).1
  have hmle : m.Available ≤ msum a.Merchants :=
    avail_le_msum _ _ _ (fun p hp => (hg.mer_nonneg p hp).1) hm
  have hav := hg.avail_nonneg
  have hgl := hg.grand_le
  have havg := hg.avail_le_grand
  have hblg := hg.blocked_le_grand
  have hbln := hg.blocked_nonneg
  have hcs := hg.csum_nn
  apply Authorize_shape_mem a mid q m _ _ _ (not_lt.mpr hlt)
  · apply ctxSub_cents _ _ hg.avail_cents hc
    rw [abs_of_nonneg (by linarith)]
    linarith
  · apply ctxAdd_cents _ _ hg.blocked_cents hc
    rw [abs_of_nonneg (by linarith)]
    have : a.Blocked + q ≤ a.Blocked + a.Available := by linarith
    have h2 : a.Blocked + a.Available ≤ grand a := by
      unfold grand
      linarith
    linarith
  · exact hm
  · apply ctxAdd_cents _ _ hmc hc
    rw [abs_of_nonneg (by linarith)]
    have h1 : m.Available + q ≤ a.Blocked + a.Available := by
      rw [hg.sumEq]
      linarith
    have h2 : a.Blocked + a.Available ≤ grand a := by
      unfold grand
      linarith
    linarith

theorem Authorize_regular_new (a : Account) (mid : Int) (q : ℚ)
    (hg : Regular a) (h0 : 0 ≤ q) (hc : cents q)
    (hlt : ¬ a.Available < q) (hm : lookupM a.Merchants mid = none) :
    a.Authorize mid q = (none, { a with
      Available := a.Available - q
      Blocked := a.Blocked + q
      Merchants := a.Merchants ++ [(mid, ⟨q, 0⟩)]
      Transactions := a.Transactions ++ [⟨.Authorize, some mid, q⟩] }) := by
  push_neg at hlt
  have hav := hg.avail_nonneg
  have hgl := hg.grand_le
  have havg := hg.avail_le_grand
  have hblg := hg.blocked_le_grand
  have hbln := hg.blocked_nonneg
  have hcs := hg.csum_nn
  have hq : ctxAdd 0 q = some q := by
    have h := ctxAdd_cents 0 q cents_zero hc (by
      rw [zero_add, abs_of_nonneg h0]
      linarith)
    rwa [zero_add] at h
  apply Authorize_shape_new a mid q _ _ _ (not_lt.mpr hlt)
  · apply ctxSub_cents _ _ hg.avail_cents hc
    rw [abs_of_nonneg (by linarith)]
    linarith
  · apply ctxAdd_cents _ _ hg.blocked_cents hc
    rw [abs_of_nonneg (by linarith)]
    have h1 : a.Blocked + q ≤ a.Blocked + a.Available := by linarith
    have h2 : a.Blocked + a.Available ≤ grand a := by
      unfold grand
      linarith
    linarith
  · exact hm
  · exact hq

theorem Capture_regular (a : Account) (mid : Int) (q : ℚ) (m : Merchant)
    (hg : Regular a) (h0 : 0 ≤ q) (hc : cents q)
    (hm : lookupM a.Merchants mid = some m) (hlt : ¬ m.Available < q) :
    a.Capture mid q = (none, { a with
      Blocked := a.Blocked - q
      Merchants := setM a.Merchants mid ⟨m.Available - q, m.Captured + q⟩
      Transactions := a.Transactions ++ [⟨.Capture, some mid, q⟩] }) := by
  push_neg at hlt
  have hmm := lookupM_mem _ _ _ hm
  have hma := (hg.mer_nonneg _ hmm).1
  have hmcn := (hg.mer_nonneg _ hmm).2
  have hmc := (hg.mer_cents _ hmm).1
  have hmcc := (hg.mer_cents _ hmm).2
  have hmle : m.Available ≤ msum a.Merchants :=
    avail_le_msum _ _ _ (fun p hp => (hg.mer_nonneg p hp).1) hm
  have hcle : m.Captured ≤ csum a.Merchants :=
    cap_le_csum _ _ _ (fun p hp => (hg.mer_nonneg p hp).2) hm
  have hav := hg.avail_nonneg
  have hgl := hg.grand_le
  have hblg := hg.blocked_le_grand
  have hbln := hg.blocked_nonneg
  have hcs := hg.csum_nn
  have hcsg := hg.csum_le_grand
  have hqbl : q ≤ a.Blocked := by
    rw [hg.sumEq]
    linarith
  apply Capture_shape a mid q m _ _ _ hm (not_lt.mpr hlt)
  · apply ctxSub_cents _ _ hmc hc
    rw [abs_of_nonneg (by linarith)]
    have : m.Available ≤ grand a := by
      rw [← hg.sumEq] at hmle
      linarith
    linarith
  · apply ctxAdd_cents _ _ hmcc hc
    rw [abs_of_nonneg (by linarith)]
    have h1 : m.Captured + q ≤ csum a.Merchants + a.Blocked := by linarith
    have h2 : csum a.Merchants + a.Blocked ≤ grand a := by
      unfold grand
      linarith
    linarith
  · apply ctxSub_cents _ _ hg.blocked_cents hc
    rw [abs_of_nonneg (by linarith)]
    linarith

theorem Reverse_regular (a : Account) (mid : Int) (q : ℚ) (m : Merchant)
    (hg : Regular a) (h0 : 0 ≤ q) (hc : cents q)
    (hm : lookupM a.Merchants mid = some m) (hlt : ¬ m.Available < q) :
    a.Reverse mid q = (none, { a with
      Available := a.Available + q
      Blocked := a.Blocked - q
      Merchants := setM a.Merchants mid ⟨m.Available - q, m.Captured⟩
      Transactions := a.Transactions ++ [⟨.Reverse, some mid, q⟩] }) := by
  push_neg at hlt
  have hmm := lookupM_mem _ _ _ hm
  have hma := (hg.mer_nonneg _ hmm).1
  have hmc := (hg.mer_cents _ hmm).1
  have hmle : m.Available ≤ msum a.Merchants :=
    avail_le_msum _ _ _ (fun p hp => (hg.mer_nonneg p hp).1) hm
  have hav := hg.avail_nonneg
  have hgl := hg.grand_le
  have havg := hg.avail_le_grand
  have hblg := hg.blocked_le_grand
  have hbln := hg.blocked_nonneg
  have hcs := hg.csum_nn
  have hqbl : q ≤ a.Blocked := by
    rw [hg.sumEq]
    linarith
  apply Reverse_shape a mid q m _ _ _ hm (not_lt.mpr hlt)
  · apply ctxSub_cents _ _ hmc hc
    rw [abs_of_nonneg (by linarith)]
    have : m.Available ≤ grand a := by
      rw [← hg.sumEq] at hmle
      linarith
    linarith
  · apply ctxSub_cents _ _ hg.blocked_cents hc
    rw [abs_of_nonneg (by linarith)]
    linarith
  · apply ctxAdd_cents _ _ hg.avail_cents hc
    rw [abs_of_nonneg (by linarith)]
    have h1 : a.Available + q ≤ a.Available + a.Blocked := by linarith
    have h2 : a.Available + a.Blocked ≤ grand a := by
      unfold grand
      linarith
    linarith

theorem Refund_regular (a : Account) (mid : Int) (q : ℚ) (m : Merchant)
    (hg : Regular a) (h0 : 0 ≤ q) (hc : cents q)
    (hm : lookupM a.Merchants mid = some m) (hlt : ¬ m.Captured < q) :
    a.Refund mid q = (none, { a with
      Available := a.Available + q
      Merchants := setM a.Merchants mid ⟨m.Available, m.Captured - q⟩
      Transactions := a.Transactions ++ [⟨.Refund, some mid, q⟩] }) := by
  push_neg at hlt
  have hmm := lookupM_mem _ _ _ hm
  have hmcn := (hg.mer_nonneg _ hmm).2
  have hmcc := (hg.mer_cents _ hmm).2
  have hcle : m.Captured ≤ csum a.Merchants :=
    cap_le_csum _ _ _ (fun p hp => (hg.mer_nonneg p hp).2) hm
  have hav := hg.avail_nonneg
  have hgl := hg.grand_le
  have hbln := hg.blocked_nonneg
  have hcs := hg.csum_nn
  have hcsg := hg.csum_le_grand
  apply Refund_shape a mid q m _ _ hm (not_lt.mpr hlt)
  · apply ctxSub_cents _ _ hmcc hc
    rw [abs_of_nonneg (by linarith)]
    linarith
  · apply ctxAdd_cents _ _ hg.avail_cents hc
    rw [abs_of_nonneg (by linarith)]
    have h1 : a.Available + q ≤ a.Available + csum a.Merchants := by linarith
    have h2 : a.Available + csum a.Merchants ≤ grand a := by
      unfold grand
      linarith
    linarith

/-! ## Preservation of regularity -/

theorem applyOp_regular (a : Account) (op : Op) (b : Account)
    (hg : Regular a) (h0 : 0 ≤ op.amount) (hc : cents op.amount)
    (hbd : grand a + opGrandDelta op ≤ 10 ^ 13)
    (h : applyOp a op = (none, b)) :
    Regular b ∧ grand b = grand a + opGrandDelta op ∧
      b.Total = a.Total + opTotalDelta op := by
  obtain ⟨hsum, hav, hmer, hnd, hcav, hcbl, hcmer, hgl⟩ := hg
  have hg' : Regular a := ⟨hsum, hav, hmer, hnd, hcav, hcbl, hcmer, hgl⟩
  cases op with
  | load q =>
    simp only [Op.amount] at h0 hc
    simp only [opGrandDelta] at hbd ⊢
    simp only [applyOp] at h
    rw [Load_regular a q hg' h0 hc hbd] at h
    simp only [Prod.mk.injEq] at h
    obtain ⟨-, rfl⟩ := h
    have hgr : grand { a with
        Available := a.Available + q
        Transactions := a.Transactions ++ [⟨.Load, none, q⟩] } = grand a + q := by
      unfold grand
      show a.Available + q + a.Blocked + csum a.Merchants = _
      ring
    refine ⟨⟨hsum, by show (0:ℚ) ≤ a.Available + q; linarith, hmer, hnd,
      cents_add hcav hc, hcbl, hcmer, by rw [hgr]; linarith⟩, hgr, ?_⟩
    show a.Available + q + a.Blocked = a.Available + a.Blocked + opTotalDelta (.load q)
    simp only [opTotalDelta]
    ring
  | authorize mid q =>
    simp only [Op.amount] at h0 hc
    simp only [opGrandDelta] at hbd ⊢
    simp only [applyOp] at h
    by_cases hlt : a.Available < q
    · rw [Authorize_underflow a mid q hlt] at h
      simp at h
    · cases hm : lookupM a.Merchants mid with
      | some m =>
        have hmm := lookupM_mem _ _ _ hm
        rw [Authorize_regular_mem a mid q m hg' h0 hc hlt hm] at h
        simp only [Prod.mk.injEq] at h
        obtain ⟨-, rfl⟩ := h
        push_neg at hlt
        have hms : msum (setM a.Merchants mid ⟨m.Available + q, m.Captured⟩)
            = msum a.Merchants - m.Available + (m.Available + q) :=
          msum_setM _ _ _ _ hnd hm
        have hcs : csum (setM a.Merchants mid ⟨m.Available + q, m.Captured⟩)
            = csum a.Merchants - m.Captured + m.Captured :=
          csum_setM _ _ _ _ hnd hm
        have hgr : grand { a with
            Available := a.Available - q
            Blocked := a.Blocked + q
            Merchants := setM a.Merchants mid ⟨m.Available + q, m.Captured⟩
            Transactions := a.Transactions ++ [⟨.Authorize, some mid, q⟩] } = grand a := by
          unfold grand
          show a.Available - q + (a.Blocked + q) + csum (setM a.Merchants mid _) = _
          rw [hcs]
          ring
        refine ⟨⟨?_, ?_, ?_, ?_, ?_, ?_, ?_, ?_⟩, by rw [hgr]; ring, ?_⟩
        · show a.Blocked + q = msum (setM a.Merchants mid ⟨m.Available + q, m.Captured⟩)
          rw [hms, hsum]
          ring
        · show (0:ℚ) ≤ a.Available - q
          linarith
        · intro p hp
          rcases mem_setM _ _ _ _ hp with rfl | hpl
          · have h1 := (hmer _ hmm).1
            have h2 := (hmer _ hmm).2
            exact ⟨by show (0:ℚ) ≤ m.Available + q; linarith, h2⟩
          · exact hmer _ hpl
        · show ((setM a.Merchants mid _).map Prod.fst).Nodup
          rw [keys_setM]
          exact hnd
        · exact cents_sub hcav hc
        · exact cents_add hcbl hc
        · intro p hp
          rcases mem_setM _ _ _ _ hp with rfl | hpl
          · exact ⟨cents_add (hcmer _ hmm).1 hc, (hcmer _ hmm).2⟩
          · exact hcmer _ hpl
        · rw [hgr]
          linarith
        · show a.Available - q + (a.Blocked + q)
            = a.Available + a.Blocked + opTotalDelta (.authorize mid q)
          simp only [opTotalDelta]
          ring
      | none =>
        rw [Authorize_regular_new a mid q hg' h0 hc hlt hm] at h
        simp only [Prod.mk.injEq] at h
        obtain ⟨-, rfl⟩ := h
        push_neg at hlt
        have hnotin := (lookupM_eq_none _ _).mp hm
        have hms : msum (a.Merchants ++ [(mid, (⟨q, 0⟩ : Merchant))])
            = msum a.Merchants + q := by
          rw [msum_append]
          simp [msum]
        have hcs : csum (a.Merchants ++ [(mid, (⟨q, 0⟩ : Merchant))])
            = csum a.Merchants := by
          rw [csum_append]
          simp [csum]
        have hgr : grand { a with
            Available := a.Available - q
            Blocked := a.Blocked + q
            Merchants := a.Merchants ++ [(mid, (⟨q, 0⟩ : Merchant))]
            Transactions := a.Transactions ++ [⟨.Authorize, some mid, q⟩] } = grand a := by
          unfold grand
          show a.Available - q + (a.Blocked + q) + csum (a.Merchants ++ _) = _
          rw [hcs]
          ring
        refine ⟨⟨?_, ?_, ?_, ?_, ?_, ?_, ?_, ?_⟩, by rw [hgr]; ring, ?_⟩
        · show a.Blocked + q = msum (a.Merchants ++ [(mid, (⟨q, 0⟩ : Merchant))])
          rw [hms, hsum]
        · show (0:ℚ) ≤ a.Available - q
          linarith
        · intro p hp
          rcases List.mem_append.mp hp with hpl | hpr
          · exact hmer _ hpl
          · obtain rfl : p = (mid, (⟨q, 0⟩ : Merchant)) := by simpa using hpr
            exact ⟨h0, le_refl 0⟩
        · show ((a.Merchants ++ [(mid, (⟨q, 0⟩ : Merchant))]).map Prod.fst).Nodup
          rw [List.map_append, List.nodup_append]
          refine ⟨hnd, List.nodup_singleton _, ?_⟩
          intro x hx
          simp only [List.map_cons, List.map_nil, List.mem_singleton]
          intro hceq
          exact hnotin (hceq ▸ hx)
        · exact cents_sub hcav hc
        · exact cents_add hcbl hc
        · intro p hp
          rcases List.mem_append.mp hp with hpl | hpr
          · exact hcmer _ hpl
          · obtain rfl : p = (mid, (⟨q, 0⟩ : Merchant)) := by simpa using hpr
            exact ⟨hc, cents_zero⟩
        · rw [hgr]
          linarith
        · show a.Available - q + (a.Blocked + q)
            = a.Available + a.Blocked + opTotalDelta (.authorize mid q)
          simp only [opTotalDelta]
          ring
  | capture mid q =>
    simp only [Op.amount] at h0 hc
    simp only [opGrandDelta] at hbd ⊢
    simp only [applyOp] at h
    cases hm : lookupM a.Merchants mid with
    | none =>
      rw [Capture_notfound a mid q hm] at h
      simp at h
    | some m =>
      by_cases hlt : m.Available < q
      · rw [Capture_underflow a mid q m hm hlt] at h
        simp at h
      · have hmm := lookupM_mem _ _ _ hm
        rw [Capture_regular a mid q m hg' h0 hc hm hlt] at h
        simp only [Prod.mk.injEq] at h
        obtain ⟨-, rfl⟩ := h
        push_neg at hlt
        have hms : msum (setM a.Merchants mid ⟨m.Available - q, m.Captured + q⟩)
            = msum a.Merchants - m.Available + (m.Available - q) :=
          msum_setM _ _ _ _ hnd hm
        have hcs : csum (setM a.Merchants mid ⟨m.Available - q, m.Captured + q⟩)
            = csum a.Merchants - m.Captured + (m.Captured + q) :=
          csum_setM _ _ _ _ hnd hm
        have hgr : grand { a with
            Blocked := a.Blocked - q
            Merchants := setM a.Merchants mid ⟨m.Available - q, m.Captured + q⟩
            Transactions := a.Transactions ++ [⟨.Capture, some mid, q⟩] } = grand a := by
          unfold grand
          show a.Available + (a.Blocked - q) + csum (setM a.Merchants mid _) = _
          rw [hcs]
          ring
        refine ⟨⟨?_, hav, ?_, ?_, hcav, ?_, ?_, ?_⟩, by rw [hgr]; ring, ?_⟩
        · show a.Blocked - q = msum (setM a.Merchants mid ⟨m.Available - q, m.Captured + q⟩)
          rw [hms, hsum]
          ring
        · intro p hp
          rcases mem_setM _ _ _ _ hp with rfl | hpl
          · have h2 := (hmer _ hmm).2
            exact ⟨by show (0:ℚ) ≤ m.Available - q; linarith,
              by show (0:ℚ) ≤ m.Captured + q; linarith⟩
          · exact hmer _ hpl
        · show ((setM a.Merchants mid _).map Prod.fst).Nodup
          rw [keys_setM]
          exact hnd
        · exact cents_sub hcbl hc
        · intro p hp
          rcases mem_setM _ _ _ _ hp with rfl | hpl
          · exact ⟨cents_sub (hcmer _ hmm).1 hc, cents_add (hcmer _ hmm).2 hc⟩
          · exact hcmer _ hpl
        · rw [hgr]
          linarith
        · show a.Available + (a.Blocked - q)
            = a.Available + a.Blocked + opTotalDelta (.capture mid q)
          simp only [opTotalDelta]
          ring
  | reverse mid q =>
    simp only [Op.amount] at h0 hc
    simp only [opGrandDelta] at hbd ⊢
    simp only [applyOp] at h
    cases hm : lookupM a.Merchants mid with
    | none =>
      rw [Reverse_notfound a mid q hm] at h
      simp at h
    | some m =>
      by_cases hlt : m.Available < q
      · rw [Reverse_underflow a mid q m hm hlt] at h
        simp at h
      · have hmm := lookupM_mem _ _ _ hm
        rw [Reverse_regular a mid q m hg' h0 hc hm hlt] at h
        simp only [Prod.mk.injEq] at h
        obtain ⟨-, rfl⟩ := h
        push_neg at hlt
        have hms : msum (setM a.Merchants mid ⟨m.Available - q, m.Captured⟩)
            = msum a.Merchants - m.Available + (m.Available - q) :=
          msum_setM _ _ _ _ hnd hm
        have hcs : csum (setM a.Merchants mid ⟨m.Available - q, m.Captured⟩)
            = csum a.Merchants - m.Captured + m.Captured :=
          csum_setM _ _ _ _ hnd hm
        have hgr : grand { a with
            Available := a.Available + q
            Blocked := a.Blocked - q
            Merchants := setM a.Merchants mid ⟨m.Available - q, m.Captured⟩
            Transactions := a.Transactions ++ [⟨.Reverse, some mid, q⟩] } = grand a := by
          unfold grand
          show a.Available + q + (a.Blocked - q) + csum (setM a.Merchants mid _) = _
          rw [hcs]
          ring
        refine ⟨⟨?_, ?_, ?_, ?_, ?_, ?_, ?_, ?_⟩, by rw [hgr]; ring, ?_⟩
        · show a.Blocked - q = msum (setM a.Merchants mid ⟨m.Available - q, m.Captured⟩)
          rw [hms, hsum]
          ring
        · show (0:ℚ) ≤ a.Available + q
          linarith
        · intro p hp
          rcases mem_setM _ _ _ _ hp with rfl | hpl
          · exact ⟨by show (0:ℚ) ≤ m.Available - q; linarith, (hmer _ hmm).2⟩
          · exact hmer _ hpl
        · show ((setM a.Merchants mid _).map Prod.fst).Nodup
          rw [keys_setM]
          exact hnd
        · exact cents_add hcav hc
        · exact cents_sub hcbl hc
        · intro p hp
          rcases mem_setM _ _ _ _ hp with rfl | hpl
          · exact ⟨cents_sub (hcmer _ hmm).1 hc, (hcmer _ hmm).2⟩
          · exact hcmer _ hpl
        · rw [hgr]
          linarith
        · show a.Available + q + (a.Blocked - q)
            = a.Available + a.Blocked + opTotalDelta (.reverse mid q)
          simp only [opTotalDelta]
          ring
  | refund mid q =>
    simp only [Op.amount] at h0 hc
    simp only [opGrandDelta] at hbd ⊢
    simp only [applyOp] at h
    cases hm : lookupM a.Merchants mid with
    | none =>
      rw [Refund_notfound a mid q hm] at h
      simp at h
    | some m =>
      by_cases hlt : m.Captured < q
      · rw [Refund_underflow a mid q m hm hlt] at h
        simp at h
      · have hmm := lookupM_mem _ _ _ hm
        rw [Refund_regular a mid q m hg' h0 hc hm hlt] at h
        simp only [Prod.mk.injEq] at h
        obtain ⟨-, rfl⟩ := h
        push_neg at hlt
        have hms : msum (setM a.Merchants mid ⟨m.Available, m.Captured - q⟩)
            = msum a.Merchants - m.Available + m.Available :=
          msum_setM _ _ _ _ hnd hm
        have hcs : csum (setM a.Merchants mid ⟨m.Available, m.Captured - q⟩)
            = csum a.Merchants - m.Captured + (m.Captured - q) :=
          csum_setM _ _ _ _ hnd hm
        have hgr : grand { a with
            Available := a.Available + q
            Merchants := setM a.Merchants mid ⟨m.Available, m.Captured - q⟩
            Transactions := a.Transactions ++ [⟨.Refund, some mid, q⟩] } = grand a := by
          unfold grand
          show a.Available + q + a.Blocked + csum (setM a.Merchants mid _) = _
          rw [hcs]
          ring
        refine ⟨⟨?_, ?_, ?_, ?_, ?_, hcbl, ?_, ?_⟩, by rw [hgr]; ring, ?_⟩
        · show a.Blocked = msum (setM a.Merchants mid ⟨m.Available, m.Captured - q⟩)
          rw [hms, hsum]
          ring
        · show (0:ℚ) ≤ a.Available + q
          linarith
        · intro p hp
          rcases mem_setM _ _ _ _ hp with rfl | hpl
          · exact ⟨(hmer _ hmm).1, by show (0:ℚ) ≤ m.Captured - q; linarith⟩
          · exact hmer _ hpl
        · show ((setM a.Merchants mid _).map Prod.fst).Nodup
          rw [keys_setM]
          exact hnd
        · exact cents_add hcav hc
        · intro p hp
          rcases mem_setM _ _ _ _ hp with rfl | hpl
          · exact ⟨(hcmer _ hmm).1, cents_sub (hcmer _ hmm).2 hc⟩
          · exact hcmer _ hpl
        · rw [hgr]
          linarith
        · show a.Available + q + a.Blocked
            = a.Available + a.Blocked + opTotalDelta (.refund mid q)
          simp only [opTotalDelta]
          ring

theorem sum_opTotalDelta (ops : List Op) :
    (ops.map opTotalDelta).sum = loadSum ops + refundSum ops - captureSum ops := by
  induction ops with
  | nil => simp [loadSum, refundSum, captureSum]
  | cons op t ih =>
    simp only [loadSum, refundSum, captureSum, List.map_cons, List.sum_cons] at ih ⊢
    cases op <;> simp only [opTotalDelta] <;> linarith

theorem runOps_regular (ops : List Op) : ∀ a b : Account, Regular a →
    (∀ op ∈ ops, 0 ≤ op.amount ∧ cents op.amount) →
    grand a + loadSum ops ≤ 10 ^ 13 →
    runOps a ops = (none, b) →
    Regular b ∧ grand b = grand a + loadSum ops ∧
      b.Total = a.Total + (ops.map opTotalDelta).sum := by
  induction ops with
  | nil =>
    intro a b hg _ _ h
    simp only [runOps, Prod.mk.injEq] at h
    obtain ⟨-, rfl⟩ := h
    refine ⟨hg, by simp [loadSum], by simp⟩
  | cons op rest ih =>
    intro a b hg hq hbd h
    simp only [runOps] at h
    cases hap : applyOp a op with
    | mk e a2 =>
      rw [hap] at h
      cases e with
      | some err => simp at h
      | none =>
        have hopq := hq op (List.mem_cons_self op rest)
        have hrest : ∀ o ∈ rest, 0 ≤ o.amount ∧ cents o.amount :=
          fun o ho => hq o (List.mem_cons_of_mem op ho)
        have hbd1 : grand a + opGrandDelta op ≤ 10 ^ 13 := by
          have hln := loadSum_nonneg rest fun o ho => (hrest o ho).1
          rw [loadSum_cons] at hbd
          linarith
        obtain ⟨hg2, hgr2, ht2⟩ := applyOp_regular a op a2 hg hopq.1 hopq.2 hbd1 hap
        have hbd2 : grand a2 + loadSum rest ≤ 10 ^ 13 := by
          rw [hgr2]
          rw [loadSum_cons] at hbd
          linarith
        obtain ⟨hg3, hgr3, ht3⟩ := ih a2 b hg2 hrest hbd2 h
        refine ⟨hg3, ?_, ?_⟩
        · rw [hgr3, hgr2, loadSum_cons]
          ring
        · rw [ht3, ht2]
          simp only [List.map_cons, List.sum_cons]
          ring

/-! ## Concrete evaluation helpers -/

theorem ctxAdd_int (x y : ℚ) (n : ℤ) (h : x + y = (n : ℚ)) (hn : |n| < 10 ^ 16) :
    ctxAdd x y = some (x + y) := by
  apply ctxAdd_exact x y n 0 (by norm_num) ?_ hn
  rw [h]
  norm_num

theorem ctxSub_int (x y : ℚ) (n : ℤ) (h : x - y = (n : ℚ)) (hn : |n| < 10 ^ 16) :
    ctxSub x y = some (x - y) := by
  apply ctxSub_exact x y n 0 (by norm_num) ?_ hn
  rw [h]
  norm_num

theorem demoAcc_regular : Regular demoAcc := by
  refine ⟨?_, ?_, ?_, ?_, ⟨600, ?_⟩, ⟨100, ?_⟩, ?_, ?_⟩
  · show (1 : ℚ) = msum [(1, ⟨1, 3⟩)]
    simp [msum]
  · show (0 : ℚ) ≤ 6
    norm_num
  · intro p hp
    obtain rfl : p = ((1 : Int), (⟨1, 3⟩ : Merchant)) := by simpa [demoAcc] using hp
    constructor <;> norm_num
  · simp [demoAcc]
  · show (6 : ℚ) = ((600 : ℤ) : ℚ) / 100
    norm_num
  · show (1 : ℚ) = ((100 : ℤ) : ℚ) / 100
    norm_num
  · intro p hp
    obtain rfl : p = ((1 : Int), (⟨1, 3⟩ : Merchant)) := by simpa [demoAcc] using hp
    exact ⟨⟨100, by norm_num⟩, ⟨300, by norm_num⟩⟩
  · show grand demoAcc ≤ 10 ^ 13
    unfold grand
    show (6 : ℚ) + 1 + csum [(1, ⟨1, 3⟩)] ≤ 10 ^ 13
    simp [csum]
    norm_num

/-- `runOps` on the empty list returns the account unchanged. -/
theorem runOps_nil (a : Account) : runOps a [] = (none, a) := by
  unfold runOps
  rfl

/-- `runOps` steps over one successful request. -/
theorem runOps_cons_ok (a b : Account) (op : Op) (ops : List Op)
    (h : applyOp a op = (none, b)) :
    runOps a (op :: ops) = runOps b ops := by
  rw [runOps.eq_def]
  simp only []
  rw [h]

theorem demo_step1 : (NewAccount 0).Load 10 = (none, demoA1) := by
  rw [Load_shape (NewAccount 0) 10 (0 + 10)
    (ctxAdd_int _ _ 10 (by norm_num [NewAccount]) (by norm_num))]
  norm_num [NewAccount, demoA1]

theorem demo_step2 : demoA1.Authorize 1 4 = (none, demoA2) := by
  rw [Authorize_shape_new _ 1 4 (10 - 4) (0 + 4) (0 + 4) (by norm_num [demoA1])
    (ctxSub_int _ _ 6 (by norm_num [demoA1]) (by norm_num))
    (ctxAdd_int _ _ 4 (by norm_num [demoA1]) (by norm_num))
    (by simp [demoA1, lookupM])
    (ctxAdd_int _ _ 4 (by norm_num) (by norm_num))]
  norm_num [demoA1, demoA2]

theorem demo_step3 : demoA2.Capture 1 3 = (none, demoAcc) := by
  rw [Capture_shape _ 1 3 ⟨4, 0⟩ (4 - 3) (0 + 3) (4 - 3)
    (by simp [demoA2, lookupM]) (by norm_num)
    (ctxSub_int _ _ 1 (by norm_num) (by norm_num))
    (ctxAdd_int _ _ 3 (by norm_num) (by norm_num))
    (ctxSub_int _ _ 1 (by norm_num [demoA2]) (by norm_num))]
  norm_num [demoA2, demoAcc, setM]

theorem runOps_demo : runOps (NewAccount 0) demoOps = (none, demoAcc) := by
  show runOps (NewAccount 0) [Op.load 10, Op.authorize 1 4, Op.capture 1 3] = _
  rw [runOps_cons_ok (NewAccount 0) demoA1 (Op.load 10) _ demo_step1,
    runOps_cons_ok demoA1 demoA2 (Op.authorize 1 4) _ demo_step2,
    runOps_cons_ok demoA2 demoAcc (Op.capture 1 3) _ demo_step3, runOps_nil]

/-! ## After a passed guard, the only error left is arithmetic -/

theorem sigScale_up (f : Nat) (s ulp : ℚ) (h : s < 2 ^ 52) :
    sigScale (f + 1) s ulp = sigScale f (s * 2) (ulp / 2) := by
  simp [sigScale, h]

theorem sigScale_down (f : Nat) (s ulp : ℚ) (h1 : ¬ s < 2 ^ 52) (h2 : 2 ^ 53 ≤ s) :
    sigScale (f + 1) s ulp = sigScale f (s / 2) (ulp * 2) := by
  simp [sigScale, h1, h2]

theorem sigScale_stop (f : Nat) (s ulp : ℚ) (h1 : ¬ s < 2 ^ 52) (h2 : ¬ 2 ^ 53 ≤ s) :
    sigScale (f + 1) s ulp = (s, ulp) := by
  simp [sigScale, h1, h2]

theorem ok_pair {p : Option CardErr × Account} (h : p.1 = none) : p = (none, p.2) := by
  cases p with
  | mk e a =>
    simp only [] at h
    rw [h]

theorem pow10_lt (k : Nat) (h : k < 100001) : (10 : ℚ) ^ k < 10 ^ 100001 := by
  exact pow_lt_pow_right₀ (by norm_num) h

theorem round16_1e15_tenth : round16 ((10 : ℚ) ^ 15 + 1 / 10) = 10 ^ 15 := by
  apply round16_eval_lt _ (10 ^ 15) (by norm_num) (by norm_num)
  · rw [Int.floor_eq_iff]
    push_cast
    constructor <;> norm_num
  · push_cast
    norm_num

theorem ctxAdd_1e15_tenth : ctxAdd ((10 : ℚ) ^ 15) (1 / 10) = some (10 ^ 15) := by
  apply ctxAdd_eq_some
  · push_cast [round16_1e15_tenth]
    rfl
  · rw [abs_of_pos (by positivity)]
    exact pow10_lt 15 (by norm_num)

theorem grand_demo : grand demoAcc = 10 := by
  show demoAcc.Available + demoAcc.Blocked + csum demoAcc.Merchants = 10
  show (6 : ℚ) + 1 + csum [(1, ⟨1, 3⟩)] = 10
  simp [csum]
  norm_num

/-- Error shape: the blocked-pool addition of `Authorize` fails after
the available-balance subtraction has already been committed. -/
theorem Authorize_arith2 (a : Account) (mid : Int) (q av : ℚ)
    (hlt : ¬ a.Available < q)
    (h1 : ctxSub a.Available q = some av)
    (h2 : ctxAdd a.Blocked q = none) :
    a.Authorize mid q = (some CardErr.Arithmetic, { a with Available := av }) := by
  unfold Account.Authorize
  rw [if_neg hlt, h1]
  simp only []
  rw [h2]

/-- Claim C1, counterexample.  Two independent failures.  (a) `Load` has
no sign check: `Load (-1)` on a new account succeeds and leaves
`Available = -1 < 0`.  (b) The context rounds every sum to 16
significant digits: after loading 2·10^15 and authorizing 10^15 for
merchant 1, authorizing a further 0.1 for merchant 2 succeeds, but the
account-level `Blocked` gains nothing (2·10^15 + 0.1 has 17 significant
digits and rounds back down) while the merchant hold records 0.1, so
`Blocked ≠ Σ merchant.Available`. -/
theorem C1_counterexample :
    (((NewAccount 0).Load (-1)).1 = none ∧
      ((NewAccount 0).Load (-1)).2.Available < 0) ∧
    ((runOps (NewAccount 0) [Op.load (2 * 10 ^ 15), Op.authorize 1 (10 ^ 15),
        Op.authorize 2 (1 / 10)]).1 = none ∧
      (runOps (NewAccount 0) [Op.load (2 * 10 ^ 15), Op.authorize 1 (10 ^ 15),
        Op.authorize 2 (1 / 10)]).2.Blocked ≠
      msum (runOps (NewAccount 0) [Op.load (2 * 10 ^ 15), Op.authorize 1 (10 ^ 15),
        Op.authorize 2 (1 / 10)]).2.Merchants) := by
  have hneg : (NewAccount 0).Load (-1) = (none, { NewAccount 0 with
      Available := 0 + -1
      Transactions := (NewAccount 0).Transactions ++ [⟨.Load, none, -1⟩] }) :=
    Load_shape _ _ _ (ctxAdd_int _ _ (-1) (by norm_num [NewAccount]) (by norm_num))
  have h1 : (NewAccount 0).Load (2 * 10 ^ 15) = (none, c1s1) := by
    rw [Load_shape (NewAccount 0) _ (0 + 2 * 10 ^ 15)
      (ctxAdd_int _ _ 2000000000000000 (by norm_num [NewAccount]) (by norm_num))]
    norm_num [NewAccount, c1s1]
  have h2 : c1s1.Authorize 1 (10 ^ 15) = (none, c1s2) := by
    rw [Authorize_shape_new c1s1 1 (10 ^ 15) _ _ _ (by norm_num [c1s1])
      (ctxSub_int _ _ 1000000000000000 (by norm_num [c1s1]) (by norm_num))
      (ctxAdd_int _ _ 1000000000000000 (by norm_num [c1s1]) (by norm_num))
      (by simp [c1s1, lookupM])
      (ctxAdd_int _ _ 1000000000000000 (by norm_num) (by norm_num))]
    norm_num [c1s1, c1s2]
  have h3 : c1s2.Authorize 2 (1 / 10) = (none, c1s3) := by
    rw [Authorize_shape_new c1s2 2 (1 / 10) _ _ _ (by norm_num [c1s2])
      (ctxSub_exact _ _ 9999999999999999 1 (by norm_num) (by norm_num [c1s2])
        (by norm_num))
      ctxAdd_1e15_tenth
      (by simp [c1s2, lookupM])
      (ctxAdd_exact _ _ 1 1 (by norm_num) (by norm_num) (by norm_num))]
    norm_num [c1s2, c1s3]
  have hrun : runOps (NewAccount 0) [Op.load (2 * 10 ^ 15), Op.authorize 1 (10 ^ 15),
      Op.authorize 2 (1 / 10)] = (none, c1s3) := by
    rw [runOps_cons_ok _ _ (Op.load (2 * 10 ^ 15)) _ h1,
      runOps_cons_ok _ _ (Op.authorize 1 (10 ^ 15)) _ h2,
      runOps_cons_ok _ _ (Op.authorize 2 (1 / 10)) _ h3, runOps_nil]
  refine ⟨⟨?_, ?_⟩, ?_, ?_⟩
  · rw [hneg]
  · rw [hneg]
    norm_num [NewAccount]
  · rw [hrun]
  · rw [hrun]
    show c1s3.Blocked ≠ msum c1s3.Merchants
    norm_num [c1s3, msum]

/-- Claim C1, amended: for any sequence of requests with non-negative
whole-cent amounts whose loads total at most 10^13, a successful run
from a new account yields `Blocked = Σ merchant.Available` with every
balance non-negative.  (Inside this envelope every context operation is
exact, so the invariant survives the 16-digit rounding.) -/
theorem C1_ledger_invariant (id : Int) (ops : List Op) (b : Account)
    (hops : ∀ op ∈ ops, 0 ≤ op.amount ∧ cents op.amount)
    (hbd : loadSum ops ≤ 10 ^ 13)
    (h : runOps (NewAccount id) ops = (none, b)) :
    b.Blocked = msum b.Merchants ∧ 0 ≤ b.Available ∧ 0 ≤ b.Blocked ∧
    ∀ p ∈ b.Merchants, 0 ≤ p.2.Available ∧ 0 ≤ p.2.Captured := by
  have hgr : grand (NewAccount id) = 0 := by
    simp [grand, NewAccount, csum]
  obtain ⟨hg, -, -⟩ := runOps_regular ops (NewAccount id) b (Regular_new id) hops
    (by rw [hgr]; linarith) h
  exact ⟨hg.sumEq, hg.avail_nonneg, hg.blocked_nonneg, hg.mer_nonneg⟩

/-- Witness for C1 at the demo run. -/
theorem C1_ledger_invariant_witness :
    (∀ op ∈ demoOps, 0 ≤ op.amount ∧ cents op.amount) ∧
    loadSum demoOps ≤ 10 ^ 13 ∧
    (demoAcc.Blocked = msum demoAcc.Merchants ∧ 0 ≤ demoAcc.Available ∧
      0 ≤ demoAcc.Blocked ∧
      ∀ p ∈ demoAcc.Merchants, 0 ≤ p.2.Available ∧ 0 ≤ p.2.Captured) := by
  have hops : ∀ op ∈ demoOps, 0 ≤ op.amount ∧ cents op.amount := by
    intro op hop
    simp only [demoOps, List.mem_cons, List.not_mem_nil, or_false] at hop
    rcases hop with rfl | rfl | rfl
    · exact ⟨by norm_num [Op.amount], 1000, by norm_num [Op.amount]⟩
    · exact ⟨by norm_num [Op.amount], 400, by norm_num [Op.amount]⟩
    · exact ⟨by norm_num [Op.amount], 300, by norm_num [Op.amount]⟩
  have hbd : loadSum demoOps ≤ 10 ^ 13 := by norm_num [demoOps, loadSum]
  exact ⟨hops, hbd, C1_ledger_invariant 0 demoOps demoAcc hops hbd runOps_demo⟩

/-- Claim C2 (code bug): failed operations are not atomic.  The spec
demands that on any error no field changes, but the source applies the
context operations in place, field by field, and returns arithmetic
errors only after earlier mutations have landed.  On an account with
Available = Blocked = 6·10^100000, `Authorize 1 (5·10^100000)` first
commits `Available -= amount` (exact), then `Blocked += amount`
overflows the context (adjusted exponent above MaxExponent 10^5), so
the call errors yet leaves `Available` changed to 10^100000. -/
theorem C2_error_after_mutation :
    (bigAcc.Authorize 1 (5 * 10 ^ 100000)).1 = some CardErr.Arithmetic ∧
    (bigAcc.Authorize 1 (5 * 10 ^ 100000)).2.Available = 10 ^ 100000 ∧
    (bigAcc.Authorize 1 (5 * 10 ^ 100000)).2.Available ≠ bigAcc.Available := by
  have hp : (0 : ℚ) < 10 ^ 100000 := by positivity
  have hlt : ¬ bigAcc.Available < 5 * 10 ^ 100000 := by
    show ¬ (6 * 10 ^ 100000 : ℚ) < 5 * 10 ^ 100000
    push_neg
    linarith
  have hXr : round16 ((10 : ℚ) ^ 100000) = 10 ^ 100000 := by
    have h := round16_exact 1 ((100000 : ℕ) : ℤ) (by norm_num) (by norm_num) (by norm_num)
    rw [zpow_natCast] at h
    simpa using h
  have h1 : ctxSub bigAcc.Available (5 * 10 ^ 100000) = some (10 ^ 100000) := by
    apply ctxSub_eq_some
    · have he : bigAcc.Available - 5 * 10 ^ 100000 = (10 : ℚ) ^ 100000 := by
        show (6 * 10 ^ 100000 : ℚ) - 5 * 10 ^ 100000 = _
        ring
      rw [he, hXr]
    · rw [abs_of_pos hp]
      exact pow10_lt 100000 (by norm_num)
  have hBr : round16 ((11 : ℚ) * 10 ^ 100000) = 11 * 10 ^ 100000 := by
    have h := round16_exact 11 ((100000 : ℕ) : ℤ) (by norm_num) (by norm_num) (by norm_num)
    rw [zpow_natCast] at h
    exact_mod_cast h
  have h2 : ctxAdd bigAcc.Blocked (5 * 10 ^ 100000) = none := by
    apply ctxAdd_eq_none _ _ (11 * 10 ^ 100000)
    · have he : bigAcc.Blocked + 5 * 10 ^ 100000 = (11 : ℚ) * 10 ^ 100000 := by
        show (6 * 10 ^ 100000 : ℚ) + 5 * 10 ^ 100000 = _
        ring
      rw [he, hBr]
    · rw [abs_of_pos (by positivity)]
      have he : (10 : ℚ) ^ 100001 = 10 * 10 ^ 100000 := by
        rw [pow_succ 10 100000]
        ring
      rw [he]
      linarith
  rw [Authorize_arith2 bigAcc 1 (5 * 10 ^ 100000) (10 ^ 100000) hlt h1 h2]
  refine ⟨rfl, rfl, ?_⟩
  show (10 : ℚ) ^ 100000 ≠ 6 * 10 ^ 100000
  intro hEq
  linarith

/-- Claim C3, counterexample: Load does not always add the amount to
the total.  With 10^15 already loaded (sixteen significant digits),
loading a further 0.1 succeeds but the sum rounds back to 10^15, so the
total is unchanged instead of increasing by the amount. -/
theorem C3_counterexample :
    ((NewAccount 0).Load (10 ^ 15)).1 = none ∧
    (((NewAccount 0).Load (10 ^ 15)).2.Load (1 / 10)).1 = none ∧
    Account.Total (((NewAccount 0).Load (10 ^ 15)).2.Load (1 / 10)).2 =
      Account.Total ((NewAccount 0).Load (10 ^ 15)).2 ∧
    Account.Total (((NewAccount 0).Load (10 ^ 15)).2.Load (1 / 10)).2 ≠
      Account.Total ((NewAccount 0).Load (10 ^ 15)).2 + 1 / 10 := by
  have h1 : (NewAccount 0).Load (10 ^ 15) = (none,
      { ID := 0
        Available := 10 ^ 15
        Blocked := 0
        Merchants := []
        Transactions := [⟨.Load, none, 10 ^ 15⟩] }) := by
    rw [Load_shape (NewAccount 0) _ (0 + 10 ^ 15)
      (ctxAdd_int _ _ 1000000000000000 (by norm_num [NewAccount]) (by norm_num))]
    norm_num [NewAccount]
  have h2 : Account.Load
      { ID := 0
        Available := 10 ^ 15
        Blocked := 0
        Merchants := []
        Transactions := [⟨.Load, none, 10 ^ 15⟩] } (1 / 10) = (none,
      { ID := 0
        Available := 10 ^ 15
        Blocked := 0
        Merchants := []
        Transactions := [⟨.Load, none, 10 ^ 15⟩, ⟨.Load, none, 1 / 10⟩] }) := by
    rw [Load_shape
      { ID := 0
        Available := 10 ^ 15
        Blocked := 0
        Merchants := []
        Transactions := [⟨.Load, none, 10 ^ 15⟩] } (1 / 10) (10 ^ 15)
      ctxAdd_1e15_tenth]
    norm_num
  rw [h1]
  simp only []
  rw [h2]
  norm_num [Account.Total]

/-- Claim C3, amended: on a regular account, for a non-negative
whole-cent amount within the 10^13 budget, every context operation is
exact, so a successful Load adds the amount to `Total`, Authorize and
Reverse preserve it, Capture removes the amount and Refund adds it; and
a successful run from a new account under those conditions ends with
`Total = Σ loads + Σ refunds - Σ captures`. -/
theorem C3_total_conservation (a : Account) (mid : Int) (q : ℚ)
    (hg : Regular a) (h0 : 0 ≤ q) (hc : cents q) (hbd : grand a + q ≤ 10 ^ 13) :
    ((a.Load q).1 = none → Account.Total (a.Load q).2 = a.Total + q) ∧
    ((a.Authorize mid q).1 = none → Account.Total (a.Authorize mid q).2 = a.Total) ∧
    ((a.Capture mid q).1 = none → Account.Total (a.Capture mid q).2 = a.Total - q) ∧
    ((a.Reverse mid q).1 = none → Account.Total (a.Reverse mid q).2 = a.Total) ∧
    ((a.Refund mid q).1 = none → Account.Total (a.Refund mid q).2 = a.Total + q) ∧
    (∀ (id : Int) (ops : List Op) (b : Account),
      (∀ op ∈ ops, 0 ≤ op.amount ∧ cents op.amount) →
      loadSum ops ≤ 10 ^ 13 →
      runOps (NewAccount id) ops = (none, b) →
      b.Total = loadSum ops + refundSum ops - captureSum ops) := by
  have key : ∀ op : Op, 0 ≤ op.amount → cents op.amount →
      grand a + opGrandDelta op ≤ 10 ^ 13 →
      (applyOp a op).1 = none →
      Account.Total (applyOp a op).2 = a.Total + opTotalDelta op := by
    intro op h0n hcn hbdn hs
    obtain ⟨-, -, ht⟩ := applyOp_regular a op (applyOp a op).2 hg h0n hcn hbdn (ok_pair hs)
    exact ht
  refine ⟨?_, ?_, ?_, ?_, ?_, ?_⟩
  · intro hs
    have h := key (.load q) h0 hc (by simpa [opGrandDelta] using hbd) hs
    simpa [applyOp, opTotalDelta] using h
  · intro hs
    have h := key (.authorize mid q) h0 hc (by simpa [opGrandDelta] using hg.grand_le) hs
    simpa [applyOp, opTotalDelta] using h
  · intro hs
    have h := key (.capture mid q) h0 hc (by simpa [opGrandDelta] using hg.grand_le) hs
    simp only [applyOp, opTotalDelta] at h
    rw [h]
    ring
  · intro hs
    have h := key (.reverse mid q) h0 hc (by simpa [opGrandDelta] using hg.grand_le) hs
    simpa [applyOp, opTotalDelta] using h
  · intro hs
    have h := key (.refund mid q) h0 hc (by simpa [opGrandDelta] using hg.grand_le) hs
    simpa [applyOp, opTotalDelta] using h
  · intro id ops b hops hbdn hrun
    have hgr : grand (NewAccount id) = 0 := by
      simp [grand, NewAccount, csum]
    obtain ⟨-, -, ht⟩ := runOps_regular ops (NewAccount id) b (Regular_new id) hops
      (by rw [hgr]; linarith) hrun
    rw [ht, sum_opTotalDelta]
    show Account.Total (NewAccount id) + _ = _
    simp [Account.Total, NewAccount]

/-- Witness for C3: loading 1 onto the demo account raises its total by 1. -/
theorem C3_total_conservation_witness :
    Regular demoAcc ∧ (0 : ℚ) ≤ 1 ∧ cents 1 ∧ grand demoAcc + 1 ≤ 10 ^ 13 ∧
    ((demoAcc.Load 1).1 = none →
      Account.Total (demoAcc.Load 1).2 = demoAcc.Total + 1) := by
  refine ⟨demoAcc_regular, by norm_num, ⟨100, by norm_num⟩, ?_, ?_⟩
  · rw [grand_demo]
    norm_num
  · exact (C3_total_conservation demoAcc 1 1 demoAcc_regular (by norm_num)
      ⟨100, by norm_num⟩ (by rw [grand_demo]; norm_num)).1

/-- Claim C4, counterexample: Refund does not always add the amount to
`Available`.  On `cxC4` (Available 10^15, merchant 1 with 0.1
captured), `Refund 1 0.1` succeeds: the merchant's captured drops to
zero, but `Available + 0.1` rounds back to 10^15, so no money arrives. -/
theorem C4_counterexample :
    (cxC4.Refund 1 (1 / 10)).1 = none ∧
    (cxC4.Refund 1 (1 / 10)).2.Available = cxC4.Available ∧
    (cxC4.Refund 1 (1 / 10)).2.Available ≠ cxC4.Available + 1 / 10 := by
  have hm : lookupM cxC4.Merchants 1 = some ⟨0, 1 / 10⟩ := by
    simp [cxC4, lookupM]
  have h := Refund_shape cxC4 1 (1 / 10) ⟨0, 1 / 10⟩ 0 (10 ^ 15) hm
    (by norm_num) (ctxSub_self (1 / 10)) ctxAdd_1e15_tenth
  rw [h]
  refine ⟨rfl, ?_, ?_⟩
  · show (10 : ℚ) ^ 15 = cxC4.Available
    norm_num [cxC4]
  · show (10 : ℚ) ^ 15 ≠ cxC4.Available + 1 / 10
    norm_num [cxC4]

/-- Claim C4, amended: on a regular account with whole-cent amounts the
arithmetic is exact, and a Refund covered by the merchant's captured
balance succeeds, moves the amount from `merchant.Captured` straight to
`Available`, and leaves `Blocked` and the merchant's hold untouched. -/
theorem C4_refund_effect (a : Account) (mid : Int) (q : ℚ) (m : Merchant)
    (hg : Regular a) (h0 : 0 ≤ q) (hc : cents q)
    (hm : lookupM a.Merchants mid = some m) (hle : q ≤ m.Captured) :
    (a.Refund mid q).1 = none ∧
    (a.Refund mid q).2.Available = a.Available + q ∧
    (a.Refund mid q).2.Blocked = a.Blocked ∧
    lookupM (a.Refund mid q).2.Merchants mid = some ⟨m.Available, m.Captured - q⟩ := by
  have hres := Refund_regular a mid q m hg h0 hc hm (not_lt.mpr hle)
  rw [hres]
  exact ⟨rfl, rfl, rfl, lookupM_setM_self _ _ _ _ hm⟩

/-- Witness for C4: refunding the 3 captured by merchant 1 of the demo
account. -/
theorem C4_refund_effect_witness :
    Regular demoAcc ∧ (0 : ℚ) ≤ 3 ∧ cents 3 ∧
    lookupM demoAcc.Merchants 1 = some ⟨1, 3⟩ ∧
    (3 : ℚ) ≤ (⟨1, 3⟩ : Merchant).Captured ∧
    ((demoAcc.Refund 1 3).1 = none ∧
      (demoAcc.Refund 1 3).2.Available = demoAcc.Available + 3 ∧
      (demoAcc.Refund 1 3).2.Blocked = demoAcc.Blocked ∧
      lookupM (demoAcc.Refund 1 3).2.Merchants 1 = some ⟨1, 3 - 3⟩) := by
  have hm : lookupM demoAcc.Merchants 1 = some ⟨1, 3⟩ := by
    simp [demoAcc, lookupM]
  exact ⟨demoAcc_regular, by norm_num, ⟨300, by norm_num⟩, hm, by norm_num,
    C4_refund_effect demoAcc 1 3 ⟨1, 3⟩ demoAcc_regular (by norm_num)
      ⟨300, by norm_num⟩ hm (by norm_num)⟩

/-- Claim C6: Capture, Reverse and Refund against an unknown merchant
always fail with `MerchantNotFound` carrying the offending identifier,
for any amount including a nil amount, with the account unchanged.  The
lookup precedes any dereference of the amount pointer. -/
theorem C6_unknown_merchant (a : Account) (mid : Int)
    (h : lookupM a.Merchants mid = none) (amt : Option ℚ) :
    a.CaptureP mid amt = some (some (CardErr.MerchantNotFound mid), a) ∧
    a.ReverseP mid amt = some (some (CardErr.MerchantNotFound mid), a) ∧
    a.RefundP mid amt = some (some (CardErr.MerchantNotFound mid), a) := by
  refine ⟨?_, ?_, ?_⟩ <;>
    simp [Account.CaptureP, Account.ReverseP, Account.RefundP, h]

/-- Witness for C6: merchant 9 is unknown to a new account; a nil amount
still yields merchant-not-found with the account unchanged. -/
theorem C6_unknown_merchant_witness :
    (NewAccount 0).CaptureP 9 none
      = some (some (CardErr.MerchantNotFound 9), NewAccount 0) ∧
    (NewAccount 0).ReverseP 9 none
      = some (some (CardErr.MerchantNotFound 9), NewAccount 0) ∧
    (NewAccount 0).RefundP 9 none
      = some (some (CardErr.MerchantNotFound 9), NewAccount 0) :=
  C6_unknown_merchant (NewAccount 0) 9 rfl none

/-- Claim C7, counterexample: the round trip is not an identity under
rounding.  On `cxC7` (Available 2·10^15), authorizing the 17-digit
amount 1000000000000000.6 succeeds: the account's `Blocked` and the
merchant's hold round up to 1000000000000001, while `Available` keeps
the exact difference.  The immediate Reverse of the same amount also
succeeds and restores `Available`, but `Blocked` ends at 0.4, not at
its original 0. -/
theorem C7_counterexample :
    (cxC7.Authorize 1 (10000000000000006 / 10)).1 = none ∧
    ((cxC7.Authorize 1 (10000000000000006 / 10)).2.Reverse 1
      (10000000000000006 / 10)).1 = none ∧
    ((cxC7.Authorize 1 (10000000000000006 / 10)).2.Reverse 1
      (10000000000000006 / 10)).2.Blocked ≠ cxC7.Blocked := by
  have hr : round16 ((10000000000000006 : ℚ) / 10) = 1000000000000001 := by
    have h := round16_eval_ge ((10000000000000006 : ℚ) / 10) (10 ^ 15)
      (by norm_num) (by norm_num)
      (by
        rw [Int.floor_eq_iff]
        push_cast
        constructor <;> norm_num)
      (by push_cast; norm_num)
    rw [h]
    push_cast
    norm_num
  have hadd : ctxAdd (0 : ℚ) (10000000000000006 / 10) = some 1000000000000001 := by
    apply ctxAdd_eq_some
    · rw [zero_add, hr]
    · rw [abs_of_pos (by norm_num)]
      calc (1000000000000001 : ℚ) < 10 ^ 16 := by norm_num
        _ < 10 ^ 100001 := pow10_lt 16 (by norm_num)
  have hA : cxC7.Authorize 1 (10000000000000006 / 10) = (none,
      { ID := 0
        Available := 9999999999999994 / 10
        Blocked := 1000000000000001
        Merchants := [(1, ⟨1000000000000001, 0⟩)]
        Transactions := [⟨.Authorize, some 1, 10000000000000006 / 10⟩] }) := by
    rw [Authorize_shape_new cxC7 1 (10000000000000006 / 10) _ _ _
      (by norm_num [cxC7])
      (ctxSub_exact _ _ 9999999999999994 1 (by norm_num) (by norm_num [cxC7])
        (by norm_num))
      (by
        show ctxAdd cxC7.Blocked (10000000000000006 / 10) = some 1000000000000001
        have he : cxC7.Blocked = (0 : ℚ) := rfl
        rw [he]
        exact hadd)
      (by simp [cxC7, lookupM]) hadd]
    norm_num [cxC7]
  have hR : Account.Reverse
      { ID := 0
        Available := 9999999999999994 / 10
        Blocked := 1000000000000001
        Merchants := [(1, ⟨1000000000000001, 0⟩)]
        Transactions := [⟨.Authorize, some 1, 10000000000000006 / 10⟩] } 1
      (10000000000000006 / 10) = (none,
      { ID := 0
        Available := 2 * 10 ^ 15
        Blocked := 4 / 10
        Merchants := [(1, ⟨4 / 10, 0⟩)]
        Transactions := [⟨.Authorize, some 1, 10000000000000006 / 10⟩,
          ⟨.Reverse, some 1, 10000000000000006 / 10⟩] }) := by
    rw [Reverse_shape _ 1 (10000000000000006 / 10) ⟨1000000000000001, 0⟩ _ _ _
      (by simp [lookupM]) (by norm_num)
      (ctxSub_exact _ _ 4 1 (by norm_num) (by norm_num) (by norm_num))
      (ctxSub_exact _ _ 4 1 (by norm_num) (by norm_num) (by norm_num))
      (ctxAdd_int _ _ 2000000000000000 (by norm_num) (by norm_num))]
    norm_num [setM]
  rw [hA]
  simp only []
  rw [hR]
  norm_num [cxC7]

/-- Claim C7, amended: on a regular account with a non-negative
whole-cent amount, a successful Authorize followed by a successful
Reverse of the same amount restores `Available`, `Blocked` and the
merchant's entry exactly (a merchant created by the Authorize ends
zeroed).  Within this envelope the context arithmetic is exact, so the
round trip is an identity. -/
theorem C7_authorize_reverse_roundtrip (a : Account) (mid : Int) (q : ℚ)
    (hg : Regular a) (h0 : 0 ≤ q) (hc : cents q)
    (h1 : (a.Authorize mid q).1 = none)
    (_h2 : ((a.Authorize mid q).2.Reverse mid q).1 = none) :
    ((a.Authorize mid q).2.Reverse mid q).2.Available = a.Available ∧
    ((a.Authorize mid q).2.Reverse mid q).2.Blocked = a.Blocked ∧
    (∀ m, lookupM a.Merchants mid = some m →
      lookupM ((a.Authorize mid q).2.Reverse mid q).2.Merchants mid = some m) ∧
    (lookupM a.Merchants mid = none →
      lookupM ((a.Authorize mid q).2.Reverse mid q).2.Merchants mid = some ⟨0, 0⟩) := by
  by_cases hlt : a.Available < q
  · rw [Authorize_underflow _ _ _ hlt] at h1
    simp at h1
  · cases hm : lookupM a.Merchants mid with
    | some m =>
      have hma : 0 ≤ m.Available := (hg.mer_nonneg _ (lookupM_mem _ _ _ hm)).1
      have hA := Authorize_regular_mem a mid q m hg h0 hc hlt hm
      have hA2 : (a.Authorize mid q).2 = { a with
          Available := a.Available - q
          Blocked := a.Blocked + q
          Merchants := setM a.Merchants mid ⟨m.Available + q, m.Captured⟩
          Transactions := a.Transactions ++ [⟨.Authorize, some mid, q⟩] } := by
        rw [hA]
      have hreg1 : Regular (a.Authorize mid q).2 := by
        refine (applyOp_regular a (.authorize mid q) (a.Authorize mid q).2 hg h0 hc
          ?_ ?_).1
        · simpa [opGrandDelta] using hg.grand_le
        · show a.Authorize mid q = (none, (a.Authorize mid q).2)
          exact ok_pair h1
      have hm1 : lookupM (a.Authorize mid q).2.Merchants mid
          = some ⟨m.Available + q, m.Captured⟩ := by
        rw [hA2]
        exact lookupM_setM_self _ _ _ _ hm
      have hlt1 : ¬ (⟨m.Available + q, m.Captured⟩ : Merchant).Available < q := by
        show ¬ m.Available + q < q
        push_neg
        linarith
      have hR := Reverse_regular (a.Authorize mid q).2 mid q
        ⟨m.Available + q, m.Captured⟩ hreg1 h0 hc hm1 hlt1
      rw [hR]
      refine ⟨?_, ?_, ?_, ?_⟩
      · show (a.Authorize mid q).2.Available + q = a.Available
        rw [hA2]
        show a.Available - q + q = a.Available
        ring
      · show (a.Authorize mid q).2.Blocked - q = a.Blocked
        rw [hA2]
        show a.Blocked + q - q = a.Blocked
        ring
      · intro m2 hm2
        obtain rfl : m = m2 := Option.some_inj.mp hm2
        show lookupM (setM (a.Authorize mid q).2.Merchants mid
          ⟨m.Available + q - q, m.Captured⟩) mid = some m
        rw [lookupM_setM_self _ _ _ _ hm1]
        have he : m.Available + q - q = m.Available := by ring
        rw [he]
      · intro hnone
        exact Option.noConfusion hnone
    | none =>
      have hA := Authorize_regular_new a mid q hg h0 hc hlt hm
      have hA2 : (a.Authorize mid q).2 = { a with
          Available := a.Available - q
          Blocked := a.Blocked + q
          Merchants := a.Merchants ++ [(mid, ⟨q, 0⟩)]
          Transactions := a.Transactions ++ [⟨.Authorize, some mid, q⟩] } := by
        rw [hA]
      have hreg1 : Regular (a.Authorize mid q).2 := by
        refine (applyOp_regular a (.authorize mid q) (a.Authorize mid q).2 hg h0 hc
          ?_ ?_).1
        · simpa [opGrandDelta] using hg.grand_le
        · show a.Authorize mid q = (none, (a.Authorize mid q).2)
          exact ok_pair h1
      have hm1 : lookupM (a.Authorize mid q).2.Merchants mid = some ⟨q, 0⟩ := by
        rw [hA2]
        show lookupM (a.Merchants ++ [(mid, ⟨q, 0⟩)]) mid = some ⟨q, 0⟩
        rw [lookupM_append, hm]
        simp [lookupM]
      have hlt1 : ¬ (⟨q, 0⟩ : Merchant).Available < q := by
        show ¬ q < q
        exact lt_irrefl q
      have hR := Reverse_regular (a.Authorize mid q).2 mid q ⟨q, 0⟩ hreg1 h0 hc
        hm1 hlt1
      rw [hR]
      refine ⟨?_, ?_, ?_, ?_⟩
      · show (a.Authorize mid q).2.Available + q = a.Available
        rw [hA2]
        show a.Available - q + q = a.Available
        ring
      · show (a.Authorize mid q).2.Blocked - q = a.Blocked
        rw [hA2]
        show a.Blocked + q - q = a.Blocked
        ring
      · intro m2 hm2
        exact Option.noConfusion hm2
      · intro _
        show lookupM (setM (a.Authorize mid q).2.Merchants mid ⟨q - q, 0⟩) mid
          = some ⟨0, 0⟩
        rw [lookupM_setM_self _ _ _ _ hm1, sub_self]

/-- Witness for C7: authorizing 4 for the fresh merchant 2 on the demo
account and reversing it restores `Available` and `Blocked`. -/
theorem C7_authorize_reverse_roundtrip_witness :
    Regular demoAcc ∧ (0 : ℚ) ≤ 4 ∧ cents 4 ∧
    (demoAcc.Authorize 2 4).1 = none ∧
    ((demoAcc.Authorize 2 4).2.Reverse 2 4).1 = none ∧
    ((demoAcc.Authorize 2 4).2.Reverse 2 4).2.Available = demoAcc.Available ∧
    ((demoAcc.Authorize 2 4).2.Reverse 2 4).2.Blocked = demoAcc.Blocked := by
  have hA := Authorize_regular_new demoAcc 2 4 demoAcc_regular (by norm_num)
    ⟨400, by norm_num⟩ (by show ¬ (6 : ℚ) < 4; norm_num) (by simp [demoAcc, lookupM])
  have hA2 : (demoAcc.Authorize 2 4).2 =
      { ID := 0
        Available := 2
        Blocked := 5
        Merchants := [(1, ⟨1, 3⟩), (2, ⟨4, 0⟩)]
        Transactions := [⟨.Load, none, 10⟩, ⟨.Authorize, some 1, 4⟩,
          ⟨.Capture, some 1, 3⟩, ⟨.Authorize, some 2, 4⟩] } := by
    rw [hA]
    norm_num [demoAcc]
  have h1 : (demoAcc.Authorize 2 4).1 = none := by
    rw [hA]
  have hR : Account.Reverse
      { ID := 0
        Available := 2
        Blocked := 5
        Merchants := [(1, ⟨1, 3⟩), (2, ⟨4, 0⟩)]
        Transactions := [⟨.Load, none, 10⟩, ⟨.Authorize, some 1, 4⟩,
          ⟨.Capture, some 1, 3⟩, ⟨.Authorize, some 2, 4⟩] } 2 4 = (none,
      { ID := 0
        Available := 6
        Blocked := 1
        Merchants := [(1, ⟨1, 3⟩), (2, ⟨0, 0⟩)]
        Transactions := [⟨.Load, none, 10⟩, ⟨.Authorize, some 1, 4⟩,
          ⟨.Capture, some 1, 3⟩, ⟨.Authorize, some 2, 4⟩,
          ⟨.Reverse, some 2, 4⟩] }) := by
    rw [Reverse_shape _ 2 4 ⟨4, 0⟩ (4 - 4) (5 - 4) (2 + 4)
      (by simp [lookupM]) (by norm_num)
      (ctxSub_int _ _ 0 (by norm_num) (by norm_num))
      (ctxSub_int _ _ 1 (by norm_num) (by norm_num))
      (ctxAdd_int _ _ 6 (by norm_num) (by norm_num))]
    norm_num [setM]
  have h2 : ((demoAcc.Authorize 2 4).2.Reverse 2 4).1 = none := by
    rw [hA2, hR]
  have hmain := C7_authorize_reverse_roundtrip demoAcc 2 4 demoAcc_regular
    (by norm_num) ⟨400, by norm_num⟩ h1 h2
  exact ⟨demoAcc_regular, by norm_num, ⟨400, by norm_num⟩, h1, h2, hmain.1, hmain.2.1⟩

/-- Claim C8 (code bug): `Account.Statement` does not render exact
decimals.  Every figure is converted to binary float64 before
formatting, so a reachable balance whose exact value is not a binary64
value renders wrongly.  Witness: after Load 9007199254740993 (which is
2^53 + 1, sixteen significant digits, exactly representable in the
ledger's decimal context), the exact two-digit figure is
9007199254740993 but the float64 pipeline prints 9007199254740992.00. -/
theorem C8_statement_uses_float64 :
    ((NewAccount 0).Load 9007199254740993).2.Available = 9007199254740993 ∧
    stmtFigure ((NewAccount 0).Load 9007199254740993).2.Available = 9007199254740992 ∧
    round2 ((NewAccount 0).Load 9007199254740993).2.Available = 9007199254740993 ∧
    stmtFigure ((NewAccount 0).Load 9007199254740993).2.Available ≠
      round2 ((NewAccount 0).Load 9007199254740993).2.Available := by
  have hav : ((NewAccount 0).Load 9007199254740993).2.Available = 9007199254740993 := by
    rw [Load_shape (NewAccount 0) 9007199254740993 (0 + 9007199254740993)
      (ctxAdd_int _ _ 9007199254740993 (by norm_num [NewAccount]) (by norm_num))]
    norm_num
  have hsig : sigScale 1200 9007199254740993 1 = (9007199254740993 / 2, 1 * 2) := by
    rw [sigScale_down 1199 _ _ (by norm_num) (by norm_num),
      sigScale_stop 1198 _ _ (by norm_num) (by norm_num)]
  have hfl : (⌊(9007199254740993 : ℚ) / 2⌋ : ℤ) = 4503599627370496 := by
    rw [Int.floor_eq_iff]
    norm_num
  have hpos : float64OfPos 9007199254740993 = 9007199254740992 := by
    simp only [float64OfPos, hsig, hfl]
    norm_num
  have hq : float64OfQ 9007199254740993 = 9007199254740992 := by
    rw [float64OfQ, if_neg (by norm_num), if_neg (by norm_num), hpos]
  have hr1 : round2 9007199254740992 = 9007199254740992 := by
    have hfl2 : (⌊(9007199254740992 : ℚ) * 100⌋ : ℤ) = 900719925474099200 := by
      rw [Int.floor_eq_iff]
      norm_num
    simp only [round2, hfl2]
    norm_num
  have hr2 : round2 9007199254740993 = 9007199254740993 := by
    have hfl2 : (⌊(9007199254740993 : ℚ) * 100⌋ : ℤ) = 900719925474099300 := by
      rw [Int.floor_eq_iff]
      norm_num
    simp only [round2, hfl2]
    norm_num
  refine ⟨hav, ?_, ?_, ?_⟩
  · rw [hav, stmtFigure, hq, hr1]
  · rw [hav, hr2]
  · rw [hav, stmtFigure, hq, hr1, hr2]
    norm_num

/-- Claim C9, counterexample: the claim that `Total` never decreases is
false — a successful Capture strictly decreases it.  After Load 10 and
Authorize 5 the total is 10; Capture 5 lowers it to 5 (the repository's
own TestCapture asserts the decreased total). -/
theorem C9_counterexample :
    (runOps (NewAccount 0) [Op.load 10, Op.authorize 1 5]).1 = none ∧
    (runOps (NewAccount 0) [Op.load 10, Op.authorize 1 5, Op.capture 1 5]).1 = none ∧
    Account.Total (runOps (NewAccount 0) [Op.load 10, Op.authorize 1 5,
      Op.capture 1 5]).2 <
      Account.Total (runOps (NewAccount 0) [Op.load 10, Op.authorize 1 5]).2 := by
  have h1 : (NewAccount 0).Load 10 = (none,
      { ID := 0
        Available := 10
        Blocked := 0
        Merchants := []
        Transactions := [⟨.Load, none, 10⟩] }) := by
    rw [Load_shape (NewAccount 0) 10 (0 + 10)
      (ctxAdd_int _ _ 10 (by norm_num [NewAccount]) (by norm_num))]
    norm_num [NewAccount]
  have h2 : Account.Authorize
      { ID := 0
        Available := 10
        Blocked := 0
        Merchants := []
        Transactions := [⟨.Load, none, 10⟩] } 1 5 = (none,
      { ID := 0
        Available := 5
        Blocked := 5
        Merchants := [(1, ⟨5, 0⟩)]
        Transactions := [⟨.Load, none, 10⟩, ⟨.Authorize, some 1, 5⟩] }) := by
    rw [Authorize_shape_new _ 1 5 (10 - 5) (0 + 5) (0 + 5) (by norm_num)
      (ctxSub_int _ _ 5 (by norm_num) (by norm_num))
      (ctxAdd_int _ _ 5 (by norm_num) (by norm_num))
      (by simp [lookupM])
      (ctxAdd_int _ _ 5 (by norm_num) (by norm_num))]
    norm_num
  have h3 : Account.Capture
      { ID := 0
        Available := 5
        Blocked := 5
        Merchants := [(1, ⟨5, 0⟩)]
        Transactions := [⟨.Load, none, 10⟩, ⟨.Authorize, some 1, 5⟩] } 1 5 = (none,
      { ID := 0
        Available := 5
        Blocked := 0
        Merchants := [(1, ⟨0, 5⟩)]
        Transactions := [⟨.Load, none, 10⟩, ⟨.Authorize, some 1, 5⟩,
          ⟨.Capture, some 1, 5⟩] }) := by
    rw [Capture_shape _ 1 5 ⟨5, 0⟩ (5 - 5) (0 + 5) (5 - 5)
      (by simp [lookupM]) (by norm_num)
      (ctxSub_int _ _ 0 (by norm_num) (by norm_num))
      (ctxAdd_int _ _ 5 (by norm_num) (by norm_num))
      (ctxSub_int _ _ 0 (by norm_num) (by norm_num))]
    norm_num [setM]
  have hrun2 : runOps (NewAccount 0) [Op.load 10, Op.authorize 1 5] = (none,
      { ID := 0
        Available := 5
        Blocked := 5
        Merchants := [(1, ⟨5, 0⟩)]
        Transactions := [⟨.Load, none, 10⟩, ⟨.Authorize, some 1, 5⟩] }) := by
    rw [runOps_cons_ok _ _ (Op.load 10) _ h1,
      runOps_cons_ok _ _ (Op.authorize 1 5) _ h2, runOps_nil]
  have hrun3 : runOps (NewAccount 0) [Op.load 10, Op.authorize 1 5, Op.capture 1 5]
      = (none,
      { ID := 0
        Available := 5
        Blocked := 0
        Merchants := [(1, ⟨0, 5⟩)]
        Transactions := [⟨.Load, none, 10⟩, ⟨.Authorize, some 1, 5⟩,
          ⟨.Capture, some 1, 5⟩] }) := by
    rw [runOps_cons_ok _ _ (Op.load 10) _ h1,
      runOps_cons_ok _ _ (Op.authorize 1 5) _ h2,
      runOps_cons_ok
        { ID := 0
          Available := 5
          Blocked := 5
          Merchants := [(1, ⟨5, 0⟩)]
          Transactions := [⟨.Load, none, 10⟩, ⟨.Authorize, some 1, 5⟩] }
        { ID := 0
          Available := 5
          Blocked := 0
          Merchants := [(1, ⟨0, 5⟩)]
          Transactions := [⟨.Load, none, 10⟩, ⟨.Authorize, some 1, 5⟩,
            ⟨.Capture, some 1, 5⟩] } (Op.capture 1 5) [] h3, runOps_nil]
  rw [hrun2, hrun3]
  norm_num [Account.Total]

/-- Claim C9, amended: on a regular account with a non-negative
whole-cent amount within budget, `Total` never decreases through Load
or Refund (it rises by the amount), is preserved exactly by Authorize
and Reverse, and decreases exactly by the amount on Capture — the only
operation that removes money from the account. -/
theorem C9_total_changes (a : Account) (mid : Int) (q : ℚ)
    (hg : Regular a) (h0 : 0 ≤ q) (hc : cents q) (hbd : grand a + q ≤ 10 ^ 13) :
    ((a.Load q).1 = none → a.Total ≤ Account.Total (a.Load q).2) ∧
    ((a.Refund mid q).1 = none → a.Total ≤ Account.Total (a.Refund mid q).2) ∧
    ((a.Authorize mid q).1 = none → Account.Total (a.Authorize mid q).2 = a.Total) ∧
    ((a.Reverse mid q).1 = none → Account.Total (a.Reverse mid q).2 = a.Total) ∧
    ((a.Capture mid q).1 = none →
      Account.Total (a.Capture mid q).2 = a.Total - q) := by
  have key : ∀ op : Op, 0 ≤ op.amount → cents op.amount →
      grand a + opGrandDelta op ≤ 10 ^ 13 →
      (applyOp a op).1 = none →
      Account.Total (applyOp a op).2 = a.Total + opTotalDelta op := by
    intro op h0n hcn hbdn hs
    obtain ⟨-, -, ht⟩ := applyOp_regular a op (applyOp a op).2 hg h0n hcn hbdn
      (ok_pair hs)
    exact ht
  refine ⟨?_, ?_, ?_, ?_, ?_⟩
  · intro hs
    have h := key (.load q) h0 hc (by simpa [opGrandDelta] using hbd) hs
    simp only [applyOp, opTotalDelta] at h
    rw [h]
    linarith
  · intro hs
    have h := key (.refund mid q) h0 hc (by simpa [opGrandDelta] using hg.grand_le) hs
    simp only [applyOp, opTotalDelta] at h
    rw [h]
    linarith
  · intro hs
    have h := key (.authorize mid q) h0 hc
      (by simpa [opGrandDelta] using hg.grand_le) hs
    simpa [applyOp, opTotalDelta] using h
  · intro hs
    have h := key (.reverse mid q) h0 hc
      (by simpa [opGrandDelta] using hg.grand_le) hs
    simpa [applyOp, opTotalDelta] using h
  · intro hs
    have h := key (.capture mid q) h0 hc
      (by simpa [opGrandDelta] using hg.grand_le) hs
    simp only [applyOp, opTotalDelta] at h
    rw [h]
    ring

/-- Witness for C9: capturing 1 of merchant 1's hold on the demo
account lowers the total by exactly 1. -/
theorem C9_total_changes_witness :
    Regular demoAcc ∧ (0 : ℚ) ≤ 1 ∧ cents 1 ∧ grand demoAcc + 1 ≤ 10 ^ 13 ∧
    ((demoAcc.Capture 1 1).1 = none →
      Account.Total (demoAcc.Capture 1 1).2 = demoAcc.Total - 1) := by
  refine ⟨demoAcc_regular, by norm_num, ⟨100, by norm_num⟩, ?_, ?_⟩
  · rw [grand_demo]
    norm_num
  · exact (C9_total_changes demoAcc 1 1 demoAcc_regular (by norm_num)
      ⟨100, by norm_num⟩ (by rw [grand_demo]; norm_num)).2.2.2.2

/-- Claim C10: an operation addressed to merchant `mid` never changes
the sub-ledger of any other merchant `n`, whether it succeeds or fails
on a guard or on arithmetic. -/
theorem C10_merchant_frame (a : Account) (mid n : Int) (q : ℚ)
    (hne : n ≠ mid) (_hn : (lookupM a.Merchants n).isSome) :
    lookupM (a.Authorize mid q).2.Merchants n = lookupM a.Merchants n ∧
    lookupM (a.Capture mid q).2.Merchants n = lookupM a.Merchants n ∧
    lookupM (a.Reverse mid q).2.Merchants n = lookupM a.Merchants n ∧
    lookupM (a.Refund mid q).2.Merchants n = lookupM a.Merchants n := by
  refine ⟨?_, ?_, ?_, ?_⟩
  · by_cases hlt : a.Available < q
    · rw [Authorize_underflow _ _ _ hlt]
    · unfold Account.Authorize
      rw [if_neg hlt]
      cases hc1 : ctxSub a.Available q with
      | none => rfl
      | some av =>
        simp only []
        cases hc2 : ctxAdd a.Blocked q with
        | none => rfl
        | some bl =>
          simp only []
          cases hm : lookupM a.Merchants mid with
          | some m =>
            simp only []
            cases hc3 : ctxAdd m.Available q with
            | none => rfl
            | some mv => exact lookupM_setM_ne _ _ _ _ hne
          | none =>
            simp only []
            cases hc3 : ctxAdd 0 q with
            | none => exact lookupM_append_single_ne _ _ _ _ hne
            | some mv =>
              show lookupM (setM (a.Merchants ++ [(mid, ⟨0, 0⟩)]) mid ⟨mv, 0⟩) n
                = lookupM a.Merchants n
              rw [lookupM_setM_ne _ _ _ _ hne]
              exact lookupM_append_single_ne _ _ _ _ hne
  · cases hm : lookupM a.Merchants mid with
    | none => rw [Capture_notfound _ _ _ hm]
    | some m =>
      by_cases hlt : m.Available < q
      · rw [Capture_underflow _ _ _ _ hm hlt]
      · unfold Account.Capture
        rw [hm]
        simp only []
        rw [if_neg hlt]
        cases hc1 : ctxSub m.Available q with
        | none => rfl
        | some mv =>
          simp only []
          cases hc2 : ctxAdd m.Captured q with
          | none => exact lookupM_setM_ne _ _ _ _ hne
          | some mc =>
            simp only []
            cases hc3 : ctxSub a.Blocked q with
            | none =>
              show lookupM (setM (setM a.Merchants mid ⟨mv, m.Captured⟩) mid
                ⟨mv, mc⟩) n = lookupM a.Merchants n
              rw [setM_setM]
              exact lookupM_setM_ne _ _ _ _ hne
            | some bl =>
              show lookupM (setM (setM a.Merchants mid ⟨mv, m.Captured⟩) mid
                ⟨mv, mc⟩) n = lookupM a.Merchants n
              rw [setM_setM]
              exact lookupM_setM_ne _ _ _ _ hne
  · cases hm : lookupM a.Merchants mid with
    | none => rw [Reverse_notfound _ _ _ hm]
    | some m =>
      by_cases hlt : m.Available < q
      · rw [Reverse_underflow _ _ _ _ hm hlt]
      · unfold Account.Reverse
        rw [hm]
        simp only []
        rw [if_neg hlt]
        cases hc1 : ctxSub m.Available q with
        | none => rfl
        | some mv =>
          simp only []
          cases hc2 : ctxSub a.Blocked q with
          | none => exact lookupM_setM_ne _ _ _ _ hne
          | some bl =>
            simp only []
            cases hc3 : ctxAdd a.Available q with
            | none => exact lookupM_setM_ne _ _ _ _ hne
            | some av => exact lookupM_setM_ne _ _ _ _ hne
  · cases hm : lookupM a.Merchants mid with
    | none => rw [Refund_notfound _ _ _ hm]
    | some m =>
      by_cases hlt : m.Captured < q
      · rw [Refund_underflow _ _ _ _ hm hlt]
      · unfold Account.Refund
        rw [hm]
        simp only []
        rw [if_neg hlt]
        cases hc1 : ctxSub m.Captured q with
        | none => rfl
        | some mc =>
          simp only []
          cases hc2 : ctxAdd a.Available q with
          | none => exact lookupM_setM_ne _ _ _ _ hne
          | some av => exact lookupM_setM_ne _ _ _ _ hne

/-- Witness for C10: operations addressed to merchant 2 leave the demo
account's merchant 1 untouched. -/
theorem C10_merchant_frame_witness :
    lookupM (demoAcc.Authorize 2 3).2.Merchants 1 = lookupM demoAcc.Merchants 1 ∧
    lookupM (demoAcc.Capture 2 3).2.Merchants 1 = lookupM demoAcc.Merchants 1 ∧
    lookupM (demoAcc.Reverse 2 3).2.Merchants 1 = lookupM demoAcc.Merchants 1 ∧
    lookupM (demoAcc.Refund 2 3).2.Merchants 1 = lookupM demoAcc.Merchants 1 :=
  C10_merchant_frame demoAcc 2 1 3 (by norm_num) (by norm_num [demoAcc, lookupM])

end Card
